import Mathlib

/-!
# Fall detection decision engine (`src/fall_detection.cpp`)

A shallow embedding of the decision logic of the sketch: the IoU helper
`iou_xywh`, the bed region computed at the end of `setup`, the per-frame
detection loop of `loop`, and the hold timer with its alert test.

Conventions of the embedding.

* C++ `int` values are Lean `Int`s in the 32-bit range. The additions,
  subtractions and multiplications of `iou_xywh` are followed by the 32-bit
  two's complement wrap (`wrap32`), which is what the target leaves when the
  exact result does not fit. `NoOverflow` says that none of them overflows, and
  `no_overflow_of_int16` shows that this holds for all rectangles with corner
  coordinates in `[-32768, 32767]` and sizes up to 32767. The remaining `int`
  operations (`xmax - xmin`, `im_w - bed_w`) act on non-negative values and
  cannot overflow.
* C++ `float` values are IEEE-754 binary32 numbers. Every finite binary32
  number is an integer multiple of `2^-149`. The `float`s of the hold timer, of
  the bed region and of the detector coordinates are non-negative and are
  embedded as the natural number of `2^-149` units they hold (`F32`); the
  result of `iou_xywh` carries a sign and is an integer number of units
  (`SF32`). Each arithmetic operation is the exact operation followed by
  rounding to nearest, ties to even (`f32rnd`), the default rounding of the
  target FPU. Overflow to infinity is not modelled: the values of the sketch
  stay far below `FLT_MAX` (`evidence_timer_le` bounds the hold timer by `2^21`
  seconds).
* The specification's IoU (`spec_iou`) is stated separately, over the
  mathematical integers and rationals, and compared with the code.
* The calls that draw on the OSD or print on the serial port have no effect on
  the decision logic and are left out; the detector result list of a frame and
  the frame size of the OSD channel are inputs.
-/

namespace FallDetection

/-! ## binary32 arithmetic on non-negative finite values -/

/-- A finite non-negative binary32 value, held as a count of `2^-149` units. -/
abbrev F32 := Nat

/-- The number of `2^-149` units in `1.0f`. -/
def f32one : Nat := 2 ^ 149

/-- Counts the halvings that bring `n` below `2^24`; the first argument bounds
the recursion and is never exhausted when it is at least `n`. -/
def f32expAux : Nat → Nat → Nat
  | 0, _ => 0
  | fuel + 1, n => if n < 2 ^ 24 then 0 else f32expAux fuel (n / 2) + 1

/-- Binary exponent of the rounding grid for a value whose integer part (in
units) is `n`: below `2^24` units every integer is representable (grid `2^0`),
above it a binary32 number keeps 24 significant bits, so the grid is
`2^(⌊log2 n⌋ - 23)`. -/
def f32exp (n : Nat) : Nat := f32expAux n n

/-- Round the non-negative rational `p / d` to the nearest integer, ties to the
even integer. -/
def rne (p d : Nat) : Nat :=
  let q := p / d
  let r := p % d
  if 2 * r < d then q
  else if d < 2 * r then q + 1
  else if q % 2 = 0 then q else q + 1

/-- Round the non-negative rational `p / d`, read in `2^-149` units, to the
nearest binary32 value (ties to even). -/
def f32rnd (p d : Nat) : F32 :=
  let e := f32exp (p / d)
  rne p (d * 2 ^ e) * 2 ^ e

/-- The binary32 value of a decimal literal `num / den`, e.g. `0.1f`. -/
def f32lit (num den : Nat) : F32 := f32rnd (num * f32one) den

/-- Conversion `(float)i` of a non-negative integer. -/
def f32ofNat (i : Nat) : F32 := f32rnd (i * f32one) 1

/-- Binary32 addition `a + b`. -/
def f32add (a b : F32) : F32 := f32rnd (a + b) 1

/-- Binary32 multiplication `a * b`. -/
def f32mul (a b : F32) : F32 := f32rnd (a * b) f32one

/-- Binary32 division `a / b`. A zero divisor yields no finite value
(IEEE gives an infinity or a NaN), which is `none` here. -/
def f32div (a b : F32) : Option F32 :=
  if b = 0 then none else some (f32rnd (a * f32one) b)

/-- Conversion `(int)f` of a non-negative float: truncation toward zero. -/
def f32toInt (f : F32) : Int := ((f / f32one : Nat) : Int)

/-! ## Rule parameters (lines 24–29) -/

/-- `static const float BED_IOU_TH = 0.10f;` -/
def BED_IOU_TH : F32 := f32lit 10 100

/-- `static const float FALL_HOLD = 1.5f;` -/
def FALL_HOLD : F32 := f32lit 15 10

/-- `static const int SCORE_TH = 40;` -/
def SCORE_TH : Int := 40

/-- `#define FALL_ID 0` -/
def FALL_ID : Int := 0

/-- `const float dt = 0.1f;` (line 253). -/
def dt : F32 := f32lit 1 10

/-! ## External data: class table and detector results -/

/-- An entry of `itemList` in `ObjectClassList.h`. The header is not part of the
sources; the table is a parameter of the embedding. -/
structure ObjectDetectionItem where
  objectName : String
  filter : Nat

/-- The class table `itemList`, indexed by class id. -/
abbrev ItemList := Int → ObjectDetectionItem

/-- One entry of `ObjDet.getResult()`: class id, score and the normalised box
corners, which are `float`s. -/
structure ObjectDetectionResult where
  type : Int
  score : Int
  xMin : F32
  xMax : F32
  yMin : F32
  yMax : F32

/-! ## Globals (lines 55–59) -/

/-- The mutable globals of the sketch that the decision logic reads or writes. -/
structure State where
  bed_roi_inited : Bool
  bed_x : Int
  bed_y : Int
  bed_w : Int
  bed_h : Int
  fall_timer : F32

/-- The initial values of the globals. -/
def State.init : State :=
  { bed_roi_inited := false, bed_x := 0, bed_y := 0, bed_w := 0, bed_h := 0, fall_timer := 0 }

/-! ## 32-bit `int` arithmetic -/

/-- The values of the 32-bit C++ `int`. -/
abbrev in_int_range (x : Int) : Prop := -2147483648 ≤ x ∧ x ≤ 2147483647

/-- The 32-bit two's complement value of an exact integer result: what an `int`
addition, subtraction or multiplication leaves on the target when the exact
result does not fit. -/
def wrap32 (x : Int) : Int := (x + 2147483648) % 4294967296 - 2147483648

/-! ## Signed binary32 values -/

/-- A finite binary32 value with its sign, held as an integer count of
`2^-149` units. -/
abbrev SF32 := Int

/-- Conversion `(float)i` of an `int`: binary32 rounding is symmetric in the
sign. -/
def f32ofInt (i : Int) : SF32 := i.sign * (f32ofNat i.natAbs : Int)

/-- Signed binary32 division `a / b`: the sign of the quotient and the rounded
quotient of the magnitudes; `none` on a zero divisor. -/
def f32sdiv (a b : SF32) : Option SF32 :=
  (f32div a.natAbs b.natAbs).map (fun (v : F32) => a.sign * b.sign * Int.ofNat v)

/-! ## `iou_xywh` (lines 62–75) -/

/-- The local `inter` of `iou_xywh`: the clamped intersection area, every `int`
operation on 32 bits. -/
def iou_inter (ax ay aw ah bx by_ bw bh : Int) : Int :=
  let ax2 := wrap32 (ax + aw)
  let ay2 := wrap32 (ay + ah)
  let bx2 := wrap32 (bx + bw)
  let by2 := wrap32 (by_ + bh)
  let inter_x1 := max ax bx
  let inter_y1 := max ay by_
  let inter_x2 := min ax2 bx2
  let inter_y2 := min ay2 by2
  let iw := max 0 (wrap32 (inter_x2 - inter_x1))
  let ih := max 0 (wrap32 (inter_y2 - inter_y1))
  wrap32 (iw * ih)

/-- The local `uni` of `iou_xywh`: `A + B - inter`, every `int` operation on
32 bits. -/
def iou_uni (ax ay aw ah bx by_ bw bh : Int) : Int :=
  let inter := iou_inter ax ay aw ah bx by_ bw bh
  let A := wrap32 (aw * ah)
  let B := wrap32 (bw * bh)
  wrap32 (wrap32 (A + B) - inter)

/-- The function `iou_xywh`: `(uni > 0) ? (float)inter / (float)uni : 0.0f`.
The result is `none` when the division has a zero divisor. -/
def iou_xywh (ax ay aw ah bx by_ bw bh : Int) : Option SF32 :=
  let inter := iou_inter ax ay aw ah bx by_ bw bh
  let uni := iou_uni ax ay aw ah bx by_ bw bh
  if 0 < uni then f32sdiv (f32ofInt inter) (f32ofInt uni) else some 0

/-- A checked exact division: undefined on a zero divisor. -/
def qdiv (a b : Int) : Option ℚ :=
  if b = 0 then none else some ((a : ℚ) / (b : ℚ))

/-- The return expression of `iou_xywh` with the quotient of the two `int`s
taken exactly instead of in binary32. -/
def iou_exact (ax ay aw ah bx by_ bw bh : Int) : Option ℚ :=
  let inter := iou_inter ax ay aw ah bx by_ bw bh
  let uni := iou_uni ax ay aw ah bx by_ bw bh
  if 0 < uni then qdiv inter uni else some 0

/-! ## The IoU of the specification -/

/-- Stated from the specification (§4.1): the area of the intersection
rectangle, found by coordinate max/min and clamped at zero, over the
mathematical integers. -/
def spec_inter (ax ay aw ah bx by_ bw bh : Int) : Int :=
  max 0 (min (ax + aw) (bx + bw) - max ax bx) * max 0 (min (ay + ah) (by_ + bh) - max ay by_)

/-- Stated from the specification (§4.1): union area = area(a) + area(b) −
intersection area. -/
def spec_uni (ax ay aw ah bx by_ bw bh : Int) : Int :=
  aw * ah + bw * bh - spec_inter ax ay aw ah bx by_ bw bh

/-- Stated from the specification (§4.1): intersection over union as an exact
rational, 0 when the union area is 0. -/
def spec_iou (ax ay aw ah bx by_ bw bh : Int) : ℚ :=
  if 0 < spec_uni ax ay aw ah bx by_ bw bh then
    (spec_inter ax ay aw ah bx by_ bw bh : ℚ) / (spec_uni ax ay aw ah bx by_ bw bh : ℚ)
  else 0

/-- No `int` operation of `iou_xywh` overflows on these arguments: the
arguments and the exact value of every sum, difference and product of lines
64–73 fit the 32-bit `int`. -/
abbrev NoOverflow (ax ay aw ah bx by_ bw bh : Int) : Prop :=
  (in_int_range ax ∧ in_int_range ay ∧ in_int_range aw ∧ in_int_range ah) ∧
  (in_int_range bx ∧ in_int_range by_ ∧ in_int_range bw ∧ in_int_range bh) ∧
  (in_int_range (ax + aw) ∧ in_int_range (ay + ah)) ∧
  (in_int_range (bx + bw) ∧ in_int_range (by_ + bh)) ∧
  in_int_range (min (ax + aw) (bx + bw) - max ax bx) ∧
  in_int_range (min (ay + ah) (by_ + bh) - max ay by_) ∧
  in_int_range (spec_inter ax ay aw ah bx by_ bw bh) ∧
  (in_int_range (aw * ah) ∧ in_int_range (bw * bh)) ∧
  in_int_range (aw * ah + bw * bh) ∧
  in_int_range (spec_uni ax ay aw ah bx by_ bw bh)

/-! ## `setup`: the bed region (lines 144–153) -/

/-- The tail of `setup`. `im_w` and `im_h` are `config.width()` and
`config.height()`, both `uint16_t`. -/
def setup (im_w im_h : Nat) (s : State) : State :=
  let bed_w := f32toInt (f32mul (f32ofNat im_w) (f32lit 35 100))
  let bed_h := f32toInt (f32mul (f32ofNat im_h) (f32lit 80 100))
  let bed_x := Int.tdiv ((im_w : Int) - bed_w) 2
  let bed_y := Int.tdiv ((im_h : Int) - bed_h) 2
  { s with bed_w := bed_w, bed_h := bed_h, bed_x := bed_x, bed_y := bed_y,
           bed_roi_inited := true }

/-! ## `loop`: one frame (lines 198–264) -/

/-- The values computed for a detection that reaches the fall decision
(lines 228–237): the pixel box size, the bed IoU and the out-of-bed test. -/
structure FallCheck where
  xmin : Int
  ymin : Int
  pw : Int
  ph : Int
  bed_iou : Option SF32
  cond_out_bed : Bool

/-- The comparison `bed_iou < BED_IOU_TH`; it is false for a value that is not
finite and comes from a zero divisor. -/
def f32lt (a : Option SF32) (b : F32) : Bool :=
  match a with
  | some v => decide (v < (b : Int))
  | none => false

/-- The conversion `(int)(v * dim)` of a normalised coordinate to a pixel
coordinate (lines 212–215); `dim` is `im_w` or `im_h`, a `uint16_t`. -/
def to_pixel (v : F32) (dim : Nat) : Int := f32toInt (f32mul v (f32ofNat dim))

/-- One iteration of the detection loop (lines 204–249). The result is `none`
when the iteration leaves the fall decision untouched: by the `continue` of
line 207 or because the test of line 227 fails. -/
def check_item (itemList : ItemList) (im_w im_h : Nat) (s : State)
    (item : ObjectDetectionResult) : Option FallCheck :=
  let obj_type := item.type
  if (itemList obj_type).filter = 0 then none
  else
    let xmin := to_pixel item.xMin im_w
    let xmax := to_pixel item.xMax im_w
    let ymin := to_pixel item.yMin im_h
    let ymax := to_pixel item.yMax im_h
    if obj_type = FALL_ID ∧ SCORE_TH ≤ item.score then
      let pw := max 1 (xmax - xmin)
      let ph := max 1 (ymax - ymin)
      let bed_iou :=
        if s.bed_roi_inited then iou_xywh xmin ymin pw ph s.bed_x s.bed_y s.bed_w s.bed_h
        else some 0
      let cond_out_bed := f32lt bed_iou BED_IOU_TH
      some { xmin := xmin, ymin := ymin, pw := pw, ph := ph, bed_iou := bed_iou,
             cond_out_bed := cond_out_bed }
    else none

/-- The effect of one loop iteration on the local `fall_cond_met`. -/
def loop_item (itemList : ItemList) (im_w im_h : Nat) (s : State)
    (fall_cond_met : Bool) (item : ObjectDetectionResult) : Bool :=
  match check_item itemList im_w im_h s item with
  | some c => if c.cond_out_bed then true else fall_cond_met
  | none => fall_cond_met

/-- The value of `fall_cond_met` after the detection loop over `results`. -/
def fall_cond_met (itemList : ItemList) (im_w im_h : Nat) (s : State)
    (results : List ObjectDetectionResult) : Bool :=
  results.foldl (loop_item itemList im_w im_h s) false

/-- The hold timer update of lines 253–258. -/
def timer_update (evidence : Bool) (fall_timer : F32) : F32 :=
  if evidence then f32add fall_timer dt else 0

/-- The alert test of line 261: `fall_timer >= FALL_HOLD`. -/
def alert (fall_timer : F32) : Bool := decide (FALL_HOLD ≤ fall_timer)

/-- One execution of `loop` on the detector results of a frame: the new globals
and whether `FALL_SUSPECTED` is reported. -/
def loop (itemList : ItemList) (im_w im_h : Nat) (s : State)
    (results : List ObjectDetectionResult) : State × Bool :=
  let met := fall_cond_met itemList im_w im_h s results
  let fall_timer := timer_update met s.fall_timer
  ({ s with fall_timer := fall_timer }, alert fall_timer)

/-- Repeated execution of `loop`, one detector result list per frame. -/
def run (itemList : ItemList) (im_w im_h : Nat) (s : State)
    (frames : List (List ObjectDetectionResult)) : State :=
  frames.foldl (fun st results => (loop itemList im_w im_h st results).1) s

/-- The hold timer after `n` consecutive frames with evidence, starting from
`fall_timer = 0`. -/
def evidence_timer : Nat → F32
  | 0 => 0
  | n + 1 => timer_update true (evidence_timer n)

/-! ## Concrete data used in the examples -/

/-- A class table in which every class is flagged (`filter = 1`). -/
def allFlagged : ItemList := fun _ => { objectName := "fall", filter := 1 }

/-- A class table in which no class is flagged (`filter = 0`). -/
def noneFlagged : ItemList := fun _ => { objectName := "fall", filter := 0 }

/-- The globals after `setup` on the full-HD channel (1920 × 1080). -/
def fhd : State := setup 1920 1080 State.init

/-- A fall detection at the left edge of a full-HD frame, outside the bed:
normalised box `[0, 0.125] × [0.25, 0.75]`, score 80. -/
def outOfBed : ObjectDetectionResult :=
  { type := 0, score := 80, xMin := 0, xMax := f32lit 125 1000,
    yMin := f32lit 25 100, yMax := f32lit 75 100 }

/-- A fall detection that covers the bed region of a full-HD frame exactly:
normalised box `[0.325, 0.675] × [0.1, 0.9]`, score 80. -/
def onBed : ObjectDetectionResult :=
  { type := 0, score := 80, xMin := f32lit 325 1000, xMax := f32lit 675 1000,
    yMin := f32lit 1 10, yMax := f32lit 9 10 }

/-- A fall detection that covers a whole frame: normalised box
`[0, 1] × [0, 1]`, score 80. -/
def fullFrame : ObjectDetectionResult :=
  { type := 0, score := 80, xMin := 0, xMax := f32one, yMin := 0, yMax := f32one }

/-- A fall detection on a 10000 × 10000 frame with pixel box
`(250, 250, 3925, 5701)`: normalised box
`[0.02505, 0.41755] × [0.02505, 0.59515]`, score 80. Its intersection with the
bed region is exactly one tenth of the union. -/
def tenthOverlap : ObjectDetectionResult :=
  { type := 0, score := 80, xMin := f32lit 501 20000, xMax := f32lit 8351 20000,
    yMin := f32lit 501 20000, yMax := f32lit 11903 20000 }

/-- The globals after fifteen full-HD frames that each hold `outOfBed`: the
hold timer has reached the threshold. -/
def alerting : State := run allFlagged 1920 1080 fhd (List.replicate 15 [outOfBed])

set_option maxRecDepth 8192

/-! ## Properties of the binary32 rounding -/

theorem f32expAux_spec (fuel n : Nat) (h : n ≤ fuel) :
    n < 2 ^ (f32expAux fuel n + 24) ∧
      (f32expAux fuel n = 0 ∨ 2 ^ (f32expAux fuel n + 23) ≤ n) := by
  induction fuel generalizing n with
  | zero =>
    have h0 : n = 0 := by omega
    subst h0
    simp [f32expAux]
  | succ fuel ih =>
    unfold f32expAux
    by_cases hn : n < 2 ^ 24
    · rw [if_pos hn]
      exact ⟨by simpa using hn, Or.inl rfl⟩
    · rw [if_neg hn]
      have hle : n / 2 ≤ fuel := by
        have : 2 ^ 24 ≤ n := Nat.le_of_not_lt hn
        have h2 : (2:Nat) ^ 24 = 16777216 := by norm_num
        omega
      obtain ⟨h1, h2⟩ := ih (n / 2) hle
      constructor
      · have e1 : 2 ^ (f32expAux fuel (n / 2) + 1 + 24) = 2 * 2 ^ (f32expAux fuel (n / 2) + 24) := by
          ring
        rw [e1]; omega
      · right
        rcases h2 with h2 | h2
        · rw [h2]
          exact Nat.le_of_not_lt hn
        · have e1 : 2 ^ (f32expAux fuel (n / 2) + 1 + 23) = 2 * 2 ^ (f32expAux fuel (n / 2) + 23) := by
            ring
          rw [e1]; omega

theorem f32exp_lt (n : Nat) : n < 2 ^ (f32exp n + 24) :=
  (f32expAux_spec n n (Nat.le_refl n)).1

theorem f32exp_le (n : Nat) : f32exp n = 0 ∨ 2 ^ (f32exp n + 23) ≤ n :=
  (f32expAux_spec n n (Nat.le_refl n)).2

/-- Rounding to nearest never goes below the floor. -/
theorem rne_ge (p d : Nat) : p / d ≤ rne p d := by
  unfold rne
  simp only
  split_ifs <;> omega

/-- Rounding to nearest never passes an integer that bounds the rational. -/
theorem rne_le (p d Y : Nat) (hd : 0 < d) (h : p ≤ Y * d) : rne p d ≤ Y := by
  have hq : p / d ≤ Y := by
    calc p / d ≤ Y * d / d := Nat.div_le_div_right h
      _ = Y := Nat.mul_div_cancel _ hd
  rcases Nat.lt_or_ge (p / d) Y with hlt | hge
  · unfold rne
    simp only
    split_ifs <;> omega
  · have hqY : p / d = Y := Nat.le_antisymm hq hge
    have hp : d * (p / d) + p % d = p := Nat.div_add_mod p d
    rw [hqY] at hp
    have hr : p % d = 0 := by
      have : d * Y = Y * d := Nat.mul_comm _ _
      omega
    unfold rne
    simp only [hr, hqY]
    simp [hd]

/-- A binary32 value `m * 2^k` that is at most `p / d` is at most the rounding
of `p / d`. -/
theorem f32rnd_ge (p d m k : Nat) (hd : 0 < d) (hm : m < 2 ^ 24)
    (h : m * 2 ^ k * d ≤ p) : m * 2 ^ k ≤ f32rnd p d := by
  unfold f32rnd
  simp only
  set e := f32exp (p / d) with he
  have hpe : 0 < 2 ^ e := Nat.pow_pos (by norm_num)
  have hn : m * 2 ^ k ≤ p / d := (Nat.le_div_iff_mul_le hd).2 h
  have hfl : p / d / 2 ^ e ≤ rne p (d * 2 ^ e) := by
    rw [Nat.div_div_eq_div_mul]
    exact rne_ge _ _
  have hfl2 : p / d / 2 ^ e * 2 ^ e ≤ rne p (d * 2 ^ e) * 2 ^ e :=
    Nat.mul_le_mul_right _ hfl
  refine Nat.le_trans ?_ hfl2
  rcases Nat.lt_or_ge k e with hk | hk
  · have he0 : f32exp (p / d) ≠ 0 := by omega
    have h23 : 2 ^ (e + 23) ≤ p / d := by
      rcases f32exp_le (p / d) with h0 | h0
      · exact absurd h0 he0
      · exact h0
    have h1 : 2 ^ 23 ≤ p / d / 2 ^ e := by
      rw [Nat.le_div_iff_mul_le hpe]
      calc 2 ^ 23 * 2 ^ e = 2 ^ (e + 23) := by ring
        _ ≤ p / d := h23
    have h2 : m * 2 ^ k ≤ 2 ^ 24 * 2 ^ k := Nat.mul_le_mul_right _ (Nat.le_of_lt hm)
    have h3 : 2 ^ 24 * 2 ^ k ≤ 2 ^ 23 * 2 ^ e := by
      have : (2:Nat) ^ 24 * 2 ^ k = 2 ^ (k + 1 + 23) := by ring
      rw [this]
      have : (2:Nat) ^ 23 * 2 ^ e = 2 ^ (e + 23) := by ring
      rw [this]
      exact Nat.pow_le_pow_right (by norm_num) (by omega)
    calc m * 2 ^ k ≤ 2 ^ 23 * 2 ^ e := Nat.le_trans h2 h3
      _ ≤ p / d / 2 ^ e * 2 ^ e := Nat.mul_le_mul_right _ h1
  · obtain ⟨j, rfl⟩ : ∃ j, k = e + j := ⟨k - e, by omega⟩
    have hy : m * 2 ^ (e + j) = m * 2 ^ j * 2 ^ e := by ring
    rw [hy] at hn ⊢
    exact Nat.mul_le_mul_right _ ((Nat.le_div_iff_mul_le hpe).2 hn)

/-- A binary32 value `m * 2^k` that is at least `p / d` is at least the rounding
of `p / d`. -/
theorem f32rnd_le (p d m k : Nat) (hd : 0 < d) (hm : m < 2 ^ 24)
    (h : p ≤ m * 2 ^ k * d) : f32rnd p d ≤ m * 2 ^ k := by
  unfold f32rnd
  simp only
  set e := f32exp (p / d) with he
  have hpe : 0 < 2 ^ e := Nat.pow_pos (by norm_num)
  have hn : p / d ≤ m * 2 ^ k := by
    calc p / d ≤ m * 2 ^ k * d / d := Nat.div_le_div_right h
      _ = m * 2 ^ k := Nat.mul_div_cancel _ hd
  rcases Nat.lt_or_ge k e with hk | hk
  · exfalso
    have he0 : f32exp (p / d) ≠ 0 := by omega
    have h23 : 2 ^ (e + 23) ≤ p / d := by
      rcases f32exp_le (p / d) with h0 | h0
      · exact absurd h0 he0
      · exact h0
    have h2 : m * 2 ^ k < 2 ^ 24 * 2 ^ k := Nat.mul_lt_mul_of_pos_right hm (Nat.pow_pos (by norm_num))
    have h3 : 2 ^ 24 * 2 ^ k ≤ 2 ^ (e + 23) := by
      have : (2:Nat) ^ 24 * 2 ^ k = 2 ^ (k + 1 + 23) := by ring
      rw [this]
      exact Nat.pow_le_pow_right (by norm_num) (by omega)
    omega
  · obtain ⟨j, rfl⟩ : ∃ j, k = e + j := ⟨k - e, by omega⟩
    have hy : m * 2 ^ (e + j) = m * 2 ^ j * 2 ^ e := by ring
    rw [hy]
    apply Nat.mul_le_mul_right
    apply rne_le _ _ _ (Nat.mul_pos hd hpe)
    calc p ≤ m * 2 ^ (e + j) * d := h
      _ = m * 2 ^ j * (d * 2 ^ e) := by ring

theorem f32rnd_zero (d : Nat) (hd : 0 < d) : f32rnd 0 d = 0 := by
  have h := f32rnd_le 0 d 0 0 hd (by norm_num) (by simp)
  simpa using h

/-- Conversion of an integer below `2^24` to `float` is exact. -/
theorem f32ofNat_exact (n : Nat) (h : n < 2 ^ 24) : f32ofNat n = n * f32one := by
  unfold f32ofNat f32one
  apply Nat.le_antisymm
  · exact f32rnd_le _ 1 n 149 (by norm_num) h (by simp)
  · exact f32rnd_ge _ 1 n 149 (by norm_num) h (by simp)

/-- Conversion of a positive integer to `float` is at least `1.0f`. -/
theorem f32ofNat_pos (n : Nat) (h : 0 < n) : f32one ≤ f32ofNat n := by
  have h1 := f32rnd_ge (n * f32one) 1 1 149 (by norm_num) (by norm_num)
    (by
      rw [Nat.mul_one, Nat.one_mul]
      exact Nat.le_mul_of_pos_left _ h)
  simpa [f32ofNat, f32one] using h1

/-- A `float` divided by itself is `1.0f`. -/
theorem f32div_self (x : F32) (hx : x ≠ 0) : f32div x x = some f32one := by
  have hpos : 0 < x := Nat.pos_of_ne_zero hx
  unfold f32div
  rw [if_neg hx]
  congr 1
  unfold f32one
  apply Nat.le_antisymm
  · have := f32rnd_le (x * 2 ^ 149) x 1 149 hpos (by norm_num) (by rw [Nat.one_mul, Nat.mul_comm])
    simpa using this
  · have := f32rnd_ge (x * 2 ^ 149) x 1 149 hpos (by norm_num) (by rw [Nat.one_mul, Nat.mul_comm])
    simpa using this

/-- Zero divided by a non-zero `float` is zero. -/
theorem f32div_zero_left (x : F32) (hx : x ≠ 0) : f32div 0 x = some 0 := by
  unfold f32div
  rw [if_neg hx, Nat.zero_mul, f32rnd_zero x (Nat.pos_of_ne_zero hx)]

theorem rne_le_succ (p d : Nat) : rne p d ≤ p / d + 1 := by
  unfold rne
  simp only
  split_ifs <;> omega

/-- Rounding to nearest is monotone in the numerator. -/
theorem rne_mono (p p' d : Nat) (h : p ≤ p') : rne p d ≤ rne p' d := by
  have hq : p / d ≤ p' / d := Nat.div_le_div_right h
  rcases Nat.lt_or_ge (p / d) (p' / d) with hlt | hge
  · exact Nat.le_trans (rne_le_succ p d) (Nat.le_trans hlt (rne_ge p' d))
  · have hqq : p' / d = p / d := Nat.le_antisymm hge hq
    have e1 : d * (p / d) + p % d = p := Nat.div_add_mod p d
    have e2 : d * (p' / d) + p' % d = p' := Nat.div_add_mod p' d
    rw [hqq] at e2
    have hr : p % d ≤ p' % d := by omega
    unfold rne
    simp only [hqq]
    split_ifs <;> omega

/-- The grid exponent is monotone. -/
theorem f32exp_mono (n n' : Nat) (h : n ≤ n') : f32exp n ≤ f32exp n' := by
  rcases f32exp_le n with h0 | h0
  · omega
  · have h1 := f32exp_lt n'
    have h2 : 2 ^ (f32exp n + 23) < 2 ^ (f32exp n' + 24) :=
      Nat.lt_of_le_of_lt (Nat.le_trans h0 h) h1
    have h3 := (Nat.pow_lt_pow_iff_right (by norm_num : 1 < 2)).1 h2
    omega

/-- Binary32 rounding is monotone in the numerator. -/
theorem f32rnd_mono (p p' d : Nat) (hd : 0 < d) (h : p ≤ p') : f32rnd p d ≤ f32rnd p' d := by
  have hq : p / d ≤ p' / d := Nat.div_le_div_right h
  have he := f32exp_mono _ _ hq
  rcases Nat.lt_or_ge (f32exp (p / d)) (f32exp (p' / d)) with hlt | hge
  · have hup : f32rnd p d ≤ 1 * 2 ^ (f32exp (p / d) + 24) := by
      apply f32rnd_le _ _ _ _ hd (by norm_num)
      rw [Nat.one_mul]
      have h1 := f32exp_lt (p / d)
      have h2 := (Nat.div_lt_iff_lt_mul hd).1 h1
      exact Nat.le_of_lt h2
    have hlow : 1 * 2 ^ (f32exp (p' / d) + 23) ≤ f32rnd p' d := by
      apply f32rnd_ge _ _ _ _ hd (by norm_num)
      rw [Nat.one_mul]
      rcases f32exp_le (p' / d) with h0 | h0
      · omega
      · exact (Nat.le_div_iff_mul_le hd).1 h0
    have hmid : 1 * 2 ^ (f32exp (p / d) + 24) ≤ 1 * 2 ^ (f32exp (p' / d) + 23) := by
      rw [Nat.one_mul, Nat.one_mul]
      exact Nat.pow_le_pow_right (by norm_num) (by omega)
    exact Nat.le_trans hup (Nat.le_trans hmid hlow)
  · have hee : f32exp (p' / d) = f32exp (p / d) := Nat.le_antisymm hge he
    unfold f32rnd
    simp only [hee]
    exact Nat.mul_le_mul_right _ (rne_mono _ _ _ h)

/-- Conversion of integers to `float` is monotone. -/
theorem f32ofNat_mono (a b : Nat) (h : a ≤ b) : f32ofNat a ≤ f32ofNat b := by
  unfold f32ofNat
  exact f32rnd_mono _ _ 1 (by norm_num) (Nat.mul_le_mul_right _ h)

/-- The quotient of a `float` by a `float` that is not smaller is at most
`1.0f`. -/
theorem f32div_le_one (a b v : F32) (hab : a ≤ b) (h : f32div a b = some v) : v ≤ f32one := by
  unfold f32div at h
  by_cases hb : b = 0
  · rw [if_pos hb] at h
    exact absurd h (by simp)
  · rw [if_neg hb] at h
    have hv := Option.some.inj h
    rw [← hv]
    have := f32rnd_le (a * f32one) b 1 149 (Nat.pos_of_ne_zero hb) (by norm_num)
      (by
        rw [Nat.one_mul]
        calc a * f32one ≤ b * f32one := Nat.mul_le_mul_right _ hab
          _ = 2 ^ 149 * b := by unfold f32one; ring)
    simpa [f32one] using this

theorem rne_scale (k p d : Nat) (hk : 0 < k) : rne (k * p) (k * d) = rne p d := by
  unfold rne
  simp only [Nat.mul_div_mul_left p d hk, Nat.mul_mod_mul_left]
  have h1 : 2 * (k * (p % d)) < k * d ↔ 2 * (p % d) < d := by
    rw [← Nat.mul_assoc, Nat.mul_comm 2 k, Nat.mul_assoc]
    exact Nat.mul_lt_mul_left hk
  have h2 : k * d < 2 * (k * (p % d)) ↔ d < 2 * (p % d) := by
    rw [← Nat.mul_assoc, Nat.mul_comm 2 k, Nat.mul_assoc]
    exact Nat.mul_lt_mul_left hk
  simp only [h1, h2]

/-- Binary32 rounding depends on the rational only, not on the fraction that
represents it. -/
theorem f32rnd_scale (k p d : Nat) (hk : 0 < k) : f32rnd (k * p) (k * d) = f32rnd p d := by
  unfold f32rnd
  simp only [Nat.mul_div_mul_left p d hk, Nat.mul_assoc, rne_scale _ _ _ hk]

theorem BED_IOU_TH_eq : BED_IOU_TH = 13421773 * 2 ^ 122 := by decide

/-- For integers `i ≤ u` with `0 < u < 2^24`, the binary32 quotient
`(float)i / (float)u` is below `0.10f` exactly when `i / u < 1 / 10`. -/
theorem f32div_lt_threshold_iff (i u : Nat) (v : F32) (hu : 0 < u) (hu24 : u < 2 ^ 24)
    (hi : i ≤ u) (h : f32div (f32ofNat i) (f32ofNat u) = some v) :
    v < BED_IOU_TH ↔ 10 * i < u := by
  have hone : 0 < f32one := by unfold f32one; exact Nat.pow_pos (by norm_num)
  rw [f32ofNat_exact i (by omega), f32ofNat_exact u hu24] at h
  unfold f32div at h
  rw [if_neg (Nat.ne_of_gt (Nat.mul_pos hu hone))] at h
  have hv : v = f32rnd (i * f32one) u := by
    rw [← Option.some.inj h, Nat.mul_comm (i * f32one) f32one, Nat.mul_comm u f32one]
    exact f32rnd_scale f32one _ _ hone
  rw [hv, BED_IOU_TH_eq]
  have h24 : (2:Nat) ^ 24 = 16777216 := by norm_num
  have hsplit : f32one = 134217728 * 2 ^ 122 := by unfold f32one; norm_num
  rcases Nat.lt_trichotomy (10 * i) u with hlt | heq | hgt
  · have hle : f32rnd (i * f32one) u ≤ 13421772 * 2 ^ 122 := by
      apply f32rnd_le _ _ _ _ hu (by norm_num)
      rw [hsplit]
      calc i * (134217728 * 2 ^ 122) = (i * 134217728) * 2 ^ 122 := by ring
        _ ≤ (13421772 * u) * 2 ^ 122 := Nat.mul_le_mul_right _ (by omega)
        _ = 13421772 * 2 ^ 122 * u := by ring
    have hlt2 : 13421772 * 2 ^ 122 < 13421773 * 2 ^ 122 := by norm_num
    exact ⟨fun _ => hlt, fun _ => Nat.lt_of_le_of_lt hle hlt2⟩
  · have hi0 : 0 < i := by omega
    have hval : f32rnd (i * f32one) u = 13421773 * 2 ^ 122 := by
      rw [← heq, Nat.mul_comm 10 i, f32rnd_scale i _ _ hi0]
      decide
    rw [hval]
    exact ⟨fun h => absurd h (Nat.lt_irrefl _), fun h => absurd h (by omega)⟩
  · have hge : 13421773 * 2 ^ 122 ≤ f32rnd (i * f32one) u := by
      apply f32rnd_ge _ _ _ _ hu (by norm_num)
      rw [hsplit]
      calc 13421773 * 2 ^ 122 * u = (13421773 * u) * 2 ^ 122 := by ring
        _ ≤ (i * 134217728) * 2 ^ 122 := Nat.mul_le_mul_right _ (by omega)
        _ = i * (134217728 * 2 ^ 122) := by ring
    exact ⟨fun h => absurd h (Nat.not_lt.2 hge), fun h => absurd h (by omega)⟩

/-! ## The hold timer -/

theorem FALL_HOLD_eq : FALL_HOLD = 3 * 2 ^ 148 := by decide

theorem dt_eq : dt = 13421773 * 2 ^ 122 := by decide

/-- Once the timer has reached the hold threshold, a further evidence frame
keeps it there. -/
theorem f32add_dt_ge_hold (t : F32) (h : FALL_HOLD ≤ t) : FALL_HOLD ≤ f32add t dt := by
  rw [FALL_HOLD_eq] at h ⊢
  unfold f32add
  apply f32rnd_ge _ _ _ _ (by norm_num) (by norm_num)
  rw [Nat.mul_one]
  exact Nat.le_trans h (Nat.le_add_right _ _)

theorem evidence_timer_succ (n : Nat) :
    evidence_timer (n + 1) = f32add (evidence_timer n) dt := by
  rw [evidence_timer, timer_update, if_pos rfl]

theorem evidence_timer_step (n m : Nat) (v w : F32) (hm : m = n + 1)
    (hv : evidence_timer n = v) (hw : f32add v dt = w) : evidence_timer m = w := by
  subst hm
  rw [evidence_timer_succ, hv, hw]

/-- The binary32 values of the hold timer over the first fifteen evidence
frames: 0.1, 0.2, 0.3 (rounded up), ..., 1.4000002, 1.5000002. -/
theorem evidence_timer_values :
    evidence_timer 1 = 13421773 * 2 ^ 122 ∧ evidence_timer 2 = 26843546 * 2 ^ 122 ∧
    evidence_timer 3 = 40265320 * 2 ^ 122 ∧ evidence_timer 4 = 53687092 * 2 ^ 122 ∧
    evidence_timer 5 = 67108864 * 2 ^ 122 ∧ evidence_timer 6 = 80530640 * 2 ^ 122 ∧
    evidence_timer 7 = 93952416 * 2 ^ 122 ∧ evidence_timer 8 = 107374192 * 2 ^ 122 ∧
    evidence_timer 9 = 120795968 * 2 ^ 122 ∧ evidence_timer 10 = 134217744 * 2 ^ 122 ∧
    evidence_timer 11 = 147639520 * 2 ^ 122 ∧ evidence_timer 12 = 161061296 * 2 ^ 122 ∧
    evidence_timer 13 = 174483072 * 2 ^ 122 ∧ evidence_timer 14 = 187904848 * 2 ^ 122 ∧
    evidence_timer 15 = 201326624 * 2 ^ 122 := by
  have h1 : evidence_timer 1 = 13421773 * 2 ^ 122 := by decide
  have h2 : evidence_timer 2 = 26843546 * 2 ^ 122 :=
    evidence_timer_step 1 2 _ _ (by norm_num) h1 (by decide)
  have h3 : evidence_timer 3 = 40265320 * 2 ^ 122 :=
    evidence_timer_step 2 3 _ _ (by norm_num) h2 (by decide)
  have h4 : evidence_timer 4 = 53687092 * 2 ^ 122 :=
    evidence_timer_step 3 4 _ _ (by norm_num) h3 (by decide)
  have h5 : evidence_timer 5 = 67108864 * 2 ^ 122 :=
    evidence_timer_step 4 5 _ _ (by norm_num) h4 (by decide)
  have h6 : evidence_timer 6 = 80530640 * 2 ^ 122 :=
    evidence_timer_step 5 6 _ _ (by norm_num) h5 (by decide)
  have h7 : evidence_timer 7 = 93952416 * 2 ^ 122 :=
    evidence_timer_step 6 7 _ _ (by norm_num) h6 (by decide)
  have h8 : evidence_timer 8 = 107374192 * 2 ^ 122 :=
    evidence_timer_step 7 8 _ _ (by norm_num) h7 (by decide)
  have h9 : evidence_timer 9 = 120795968 * 2 ^ 122 :=
    evidence_timer_step 8 9 _ _ (by norm_num) h8 (by decide)
  have h10 : evidence_timer 10 = 134217744 * 2 ^ 122 :=
    evidence_timer_step 9 10 _ _ (by norm_num) h9 (by decide)
  have h11 : evidence_timer 11 = 147639520 * 2 ^ 122 :=
    evidence_timer_step 10 11 _ _ (by norm_num) h10 (by decide)
  have h12 : evidence_timer 12 = 161061296 * 2 ^ 122 :=
    evidence_timer_step 11 12 _ _ (by norm_num) h11 (by decide)
  have h13 : evidence_timer 13 = 174483072 * 2 ^ 122 :=
    evidence_timer_step 12 13 _ _ (by norm_num) h12 (by decide)
  have h14 : evidence_timer 14 = 187904848 * 2 ^ 122 :=
    evidence_timer_step 13 14 _ _ (by norm_num) h13 (by decide)
  have h15 : evidence_timer 15 = 201326624 * 2 ^ 122 :=
    evidence_timer_step 14 15 _ _ (by norm_num) h14 (by decide)
  exact ⟨h1, h2, h3, h4, h5, h6, h7, h8, h9, h10, h11, h12, h13, h14, h15⟩

theorem evidence_timer_ge (n : Nat) (h : 15 ≤ n) : FALL_HOLD ≤ evidence_timer n := by
  induction n, h using Nat.le_induction with
  | base =>
    rw [evidence_timer_values.2.2.2.2.2.2.2.2.2.2.2.2.2.2, FALL_HOLD_eq]
    decide
  | succ n _ ih =>
    rw [evidence_timer_succ]
    exact f32add_dt_ge_hold _ ih

/-- The hold timer never exceeds `2^21` seconds: there `fall_timer + 0.1f`
rounds back to `fall_timer`. -/
theorem evidence_timer_le (n : Nat) : evidence_timer n ≤ 2 ^ 21 * f32one := by
  induction n with
  | zero => exact Nat.zero_le _
  | succ n ih =>
    rw [evidence_timer_succ]
    have hfix : f32add (2 ^ 21 * f32one) dt = 2 ^ 21 * f32one := by decide
    calc f32add (evidence_timer n) dt
        ≤ f32add (2 ^ 21 * f32one) dt :=
          f32rnd_mono _ _ 1 (by norm_num) (Nat.add_le_add_right ih _)
      _ = 2 ^ 21 * f32one := hfix

theorem check_item_timer (itemList : ItemList) (im_w im_h : Nat) (s : State) (t : F32)
    (item : ObjectDetectionResult) :
    check_item itemList im_w im_h { s with fall_timer := t } item
      = check_item itemList im_w im_h s item := rfl

theorem fall_cond_met_timer (itemList : ItemList) (im_w im_h : Nat) (s : State) (t : F32)
    (results : List ObjectDetectionResult) :
    fall_cond_met itemList im_w im_h { s with fall_timer := t } results
      = fall_cond_met itemList im_w im_h s results := rfl

/-- With evidence in every frame, `run` advances the timer once per frame. -/
theorem run_evidence (itemList : ItemList) (im_w im_h : Nat)
    (frames : List (List ObjectDetectionResult)) (s : State) (n : Nat)
    (ht : s.fall_timer = evidence_timer n)
    (hev : ∀ results ∈ frames, fall_cond_met itemList im_w im_h s results = true) :
    (run itemList im_w im_h s frames).fall_timer = evidence_timer (n + frames.length) := by
  induction frames generalizing s n with
  | nil => simpa [run] using ht
  | cons f fs ih =>
    have hf : fall_cond_met itemList im_w im_h s f = true := hev f (List.mem_cons_self _ _)
    have hstep : (loop itemList im_w im_h s f).1
        = { s with fall_timer := evidence_timer (n + 1) } := by
      simp [loop, hf, evidence_timer, ht]
    have hrun : run itemList im_w im_h s (f :: fs)
        = run itemList im_w im_h (loop itemList im_w im_h s f).1 fs := by
      simp [run]
    rw [hrun, hstep]
    have := ih { s with fall_timer := evidence_timer (n + 1) } (n + 1) rfl
      (fun r hr => by
        rw [fall_cond_met_timer]
        exact hev r (List.mem_cons_of_mem _ hr))
    rw [this]
    congr 1
    simp only [List.length_cons]
    omega

/-- C2. Whatever the value of the hold timer, a frame without evidence sets the
timer to 0 and the alert is not reported for that frame. -/
theorem no_evidence_resets (itemList : ItemList) (im_w im_h : Nat) (s : State)
    (results : List ObjectDetectionResult)
    (hno : fall_cond_met itemList im_w im_h s results = false) :
    (loop itemList im_w im_h s results).1.fall_timer = 0 ∧
      (loop itemList im_w im_h s results).2 = false := by
  simp [loop, hno, timer_update, alert, FALL_HOLD_eq]

/-- The state `alerting` reports the alert. -/
theorem alerting_is_alerting : alert alerting.fall_timer = true := by
  have h := run_evidence allFlagged 1920 1080 (List.replicate 15 [outOfBed]) fhd 0
    (by decide) (by decide)
  have hlen : 0 + (List.replicate 15 [outOfBed]).length = 15 := by simp
  rw [hlen] at h
  unfold alerting alert
  rw [h]
  exact decide_eq_true (evidence_timer_ge 15 (Nat.le_refl _))

theorem no_evidence_resets_witness :
    fall_cond_met allFlagged 1920 1080 alerting [onBed] = false ∧
    (loop allFlagged 1920 1080 alerting [onBed]).1.fall_timer = 0 ∧
    (loop allFlagged 1920 1080 alerting [onBed]).2 = false :=
  ⟨by decide, no_evidence_resets allFlagged 1920 1080 alerting [onBed] (by decide)⟩

/-! ## 32-bit arithmetic and signed values -/

/-- On a value that fits the `int`, wrapping changes nothing. -/
theorem wrap32_of_range (x : Int) (h : in_int_range x) : wrap32 x = x := by
  obtain ⟨h1, h2⟩ := h
  unfold wrap32
  omega

theorem f32ofNat_zero : f32ofNat 0 = 0 := by
  unfold f32ofNat
  simpa using f32rnd_zero 1 (by norm_num)

theorem f32ofInt_natCast (n : Nat) : f32ofInt (n : Int) = (f32ofNat n : Int) := by
  unfold f32ofInt
  rcases Nat.eq_zero_or_pos n with h | h
  · subst h
    simp [f32ofNat_zero]
  · have hs : ((n : Int)).sign = 1 := Int.sign_eq_one_of_pos (by exact_mod_cast h)
    rw [hs, Int.natAbs_ofNat, Int.one_mul]

theorem f32ofInt_of_nonneg (i : Int) (h : 0 ≤ i) : f32ofInt i = (f32ofNat i.toNat : Int) := by
  obtain ⟨n, rfl⟩ := Int.eq_ofNat_of_zero_le h
  rw [f32ofInt_natCast, Int.toNat_ofNat]

/-- On non-negative values with a positive divisor the signed division is the
division of the magnitudes. -/
theorem f32sdiv_natCast (x y : Nat) (hy : 0 < y) :
    f32sdiv (x : Int) (y : Int) = (f32div x y).map Int.ofNat := by
  unfold f32sdiv
  have hsy : ((y : Int)).sign = 1 := Int.sign_eq_one_of_pos (by exact_mod_cast hy)
  rw [Int.natAbs_ofNat, Int.natAbs_ofNat, hsy]
  rcases Nat.eq_zero_or_pos x with h | h
  · subst h
    rw [f32div_zero_left y (Nat.ne_of_gt hy)]
    simp
  · have hsx : ((x : Int)).sign = 1 := Int.sign_eq_one_of_pos (by exact_mod_cast h)
    rw [hsx]
    simp only [Int.mul_one, Int.one_mul]

/-- The quotient of the `float`s of two integers `i ≤ u`, `0 < u`, is finite
and at most `1.0f`. -/
theorem f32div_ofNat_le_one (i u : Nat) (hiu : i ≤ u) (hu : 0 < u) :
    ∃ v, f32div (f32ofNat i) (f32ofNat u) = some v ∧ v ≤ f32one := by
  have hone : 0 < f32one := by unfold f32one; exact Nat.pow_pos (by norm_num)
  have hne : f32ofNat u ≠ 0 := Nat.ne_of_gt (Nat.lt_of_lt_of_le hone (f32ofNat_pos u hu))
  have hdiv : f32div (f32ofNat i) (f32ofNat u)
      = some (f32rnd (f32ofNat i * f32one) (f32ofNat u)) := by
    unfold f32div
    rw [if_neg hne]
  exact ⟨_, hdiv, f32div_le_one _ _ _ (f32ofNat_mono _ _ hiu) hdiv⟩

/-! ## The IoU of the specification -/

theorem spec_inter_nonneg (ax ay aw ah bx by_ bw bh : Int) :
    0 ≤ spec_inter ax ay aw ah bx by_ bw bh := by
  unfold spec_inter
  exact mul_nonneg (le_max_left _ _) (le_max_left _ _)

theorem spec_inter_le_left (ax ay aw ah bx by_ bw bh : Int) (haw : 0 ≤ aw) (hah : 0 ≤ ah) :
    spec_inter ax ay aw ah bx by_ bw bh ≤ aw * ah := by
  unfold spec_inter
  apply mul_le_mul _ _ (le_max_left _ _) haw
  · apply max_le haw
    have h1 := min_le_left (ax + aw) (bx + bw)
    have h2 := le_max_left ax bx
    omega
  · apply max_le hah
    have h1 := min_le_left (ay + ah) (by_ + bh)
    have h2 := le_max_left ay by_
    omega

theorem spec_inter_comm (ax ay aw ah bx by_ bw bh : Int) :
    spec_inter ax ay aw ah bx by_ bw bh = spec_inter bx by_ bw bh ax ay aw ah := by
  unfold spec_inter
  rw [max_comm ax bx, max_comm ay by_, min_comm (ax + aw) (bx + bw),
    min_comm (ay + ah) (by_ + bh)]

theorem spec_inter_le_uni (ax ay aw ah bx by_ bw bh : Int)
    (haw : 0 ≤ aw) (hah : 0 ≤ ah) (hbw : 0 ≤ bw) (hbh : 0 ≤ bh) :
    spec_inter ax ay aw ah bx by_ bw bh ≤ spec_uni ax ay aw ah bx by_ bw bh := by
  have h1 := spec_inter_le_left ax ay aw ah bx by_ bw bh haw hah
  have h2 := spec_inter_le_left bx by_ bw bh ax ay aw ah hbw hbh
  rw [← spec_inter_comm] at h2
  unfold spec_uni
  omega

/-- The intersection area of a rectangle with itself is its area. -/
theorem spec_inter_self (ax ay aw ah : Int) (haw : 0 ≤ aw) (hah : 0 ≤ ah) :
    spec_inter ax ay aw ah ax ay aw ah = aw * ah := by
  unfold spec_inter
  simp only [max_self, min_self, add_sub_cancel_left]
  rw [max_eq_right haw, max_eq_right hah]

/-- The intersection area of two rectangles whose extents are disjoint on one
axis is zero. -/
theorem spec_inter_disjoint (ax ay aw ah bx by_ bw bh : Int)
    (h : ax + aw ≤ bx ∨ bx + bw ≤ ax ∨ ay + ah ≤ by_ ∨ by_ + bh ≤ ay) :
    spec_inter ax ay aw ah bx by_ bw bh = 0 := by
  unfold spec_inter
  have hx1 := min_le_left (ax + aw) (bx + bw)
  have hx2 := min_le_right (ax + aw) (bx + bw)
  have hx3 := le_max_left ax bx
  have hx4 := le_max_right ax bx
  have hy1 := min_le_left (ay + ah) (by_ + bh)
  have hy2 := min_le_right (ay + ah) (by_ + bh)
  have hy3 := le_max_left ay by_
  have hy4 := le_max_right ay by_
  rcases h with h | h | h | h
  · rw [max_eq_left (by omega : min (ax + aw) (bx + bw) - max ax bx ≤ 0), zero_mul]
  · rw [max_eq_left (by omega : min (ax + aw) (bx + bw) - max ax bx ≤ 0), zero_mul]
  · rw [max_eq_left (by omega : min (ay + ah) (by_ + bh) - max ay by_ ≤ 0), mul_zero]
  · rw [max_eq_left (by omega : min (ay + ah) (by_ + bh) - max ay by_ ≤ 0), mul_zero]

/-! ## `iou_xywh` -/

/-- Without overflow the `inter` of the code is the intersection area. -/
theorem iou_inter_eq_spec (ax ay aw ah bx by_ bw bh : Int)
    (h : NoOverflow ax ay aw ah bx by_ bw bh) :
    iou_inter ax ay aw ah bx by_ bw bh = spec_inter ax ay aw ah bx by_ bw bh := by
  obtain ⟨-, -, ⟨h1, h2⟩, ⟨h3, h4⟩, h5, h6, h7, -, -, -⟩ := h
  unfold iou_inter
  simp only [wrap32_of_range _ h1, wrap32_of_range _ h2, wrap32_of_range _ h3,
    wrap32_of_range _ h4, wrap32_of_range _ h5, wrap32_of_range _ h6]
  exact wrap32_of_range _ h7

/-- Without overflow the `uni` of the code is the union area. -/
theorem iou_uni_eq_spec (ax ay aw ah bx by_ bw bh : Int)
    (h : NoOverflow ax ay aw ah bx by_ bw bh) :
    iou_uni ax ay aw ah bx by_ bw bh = spec_uni ax ay aw ah bx by_ bw bh := by
  have hi := iou_inter_eq_spec ax ay aw ah bx by_ bw bh h
  obtain ⟨-, -, -, -, -, -, -, ⟨h8, h9⟩, h10, h11⟩ := h
  unfold iou_uni
  simp only [hi, wrap32_of_range _ h8, wrap32_of_range _ h9, wrap32_of_range _ h10]
  exact wrap32_of_range _ h11

theorem iou_inter_comm (ax ay aw ah bx by_ bw bh : Int) :
    iou_inter ax ay aw ah bx by_ bw bh = iou_inter bx by_ bw bh ax ay aw ah := by
  unfold iou_inter
  simp only
  rw [max_comm ax bx, max_comm ay by_, min_comm (wrap32 (ax + aw)) (wrap32 (bx + bw)),
    min_comm (wrap32 (ay + ah)) (wrap32 (by_ + bh))]

theorem iou_uni_comm (ax ay aw ah bx by_ bw bh : Int) :
    iou_uni ax ay aw ah bx by_ bw bh = iou_uni bx by_ bw bh ax ay aw ah := by
  unfold iou_uni
  simp only
  rw [iou_inter_comm ax ay aw ah bx by_ bw bh, add_comm (wrap32 (aw * ah)) (wrap32 (bw * bh))]

/-- When `inter` is not negative, `iou_xywh` is the division of the magnitudes. -/
theorem iou_xywh_of_nonneg (ax ay aw ah bx by_ bw bh : Int)
    (hi : 0 ≤ iou_inter ax ay aw ah bx by_ bw bh) :
    iou_xywh ax ay aw ah bx by_ bw bh =
      if 0 < iou_uni ax ay aw ah bx by_ bw bh then
        (f32div (f32ofNat (iou_inter ax ay aw ah bx by_ bw bh).toNat)
          (f32ofNat (iou_uni ax ay aw ah bx by_ bw bh).toNat)).map Int.ofNat
      else some 0 := by
  unfold iou_xywh
  simp only
  by_cases hpos : 0 < iou_uni ax ay aw ah bx by_ bw bh
  · rw [if_pos hpos, if_pos hpos, f32ofInt_of_nonneg _ hi, f32ofInt_of_nonneg _ (le_of_lt hpos)]
    have hone : 0 < f32one := by unfold f32one; exact Nat.pow_pos (by norm_num)
    exact f32sdiv_natCast _ _
      (Nat.lt_of_lt_of_le hone (f32ofNat_pos _ (by omega)))
  · rw [if_neg hpos, if_neg hpos]

/-- Rectangles with corner coordinates in `[-32768, 32767]` and sizes in
`[0, 32767]` cause no overflow in `iou_xywh`. -/
theorem no_overflow_of_int16 (ax ay aw ah bx by_ bw bh : Int)
    (hax : -32768 ≤ ax ∧ ax ≤ 32767) (hay : -32768 ≤ ay ∧ ay ≤ 32767)
    (hbx : -32768 ≤ bx ∧ bx ≤ 32767) (hby : -32768 ≤ by_ ∧ by_ ≤ 32767)
    (haw : 0 ≤ aw ∧ aw ≤ 32767) (hah : 0 ≤ ah ∧ ah ≤ 32767)
    (hbw : 0 ≤ bw ∧ bw ≤ 32767) (hbh : 0 ≤ bh ∧ bh ≤ 32767) :
    NoOverflow ax ay aw ah bx by_ bw bh := by
  have hA0 : 0 ≤ aw * ah := mul_nonneg haw.1 hah.1
  have hB0 : 0 ≤ bw * bh := mul_nonneg hbw.1 hbh.1
  have hA : aw * ah ≤ 32767 * 32767 := mul_le_mul haw.2 hah.2 hah.1 (by norm_num)
  have hB : bw * bh ≤ 32767 * 32767 := mul_le_mul hbw.2 hbh.2 hbh.1 (by norm_num)
  have hi0 := spec_inter_nonneg ax ay aw ah bx by_ bw bh
  have hiA := spec_inter_le_left ax ay aw ah bx by_ bw bh haw.1 hah.1
  have hx1 := min_le_left (ax + aw) (bx + bw)
  have hx2 : ax ≤ max ax bx := le_max_left _ _
  have hx3 : min ax bx ≤ min (ax + aw) (bx + bw) := min_le_min (by omega) (by omega)
  have hx6 : max ax bx ≤ 32767 := max_le hax.2 hbx.2
  have hx7 : -32768 ≤ min ax bx := le_min hax.1 hbx.1
  have hy1 := min_le_left (ay + ah) (by_ + bh)
  have hy2 : ay ≤ max ay by_ := le_max_left _ _
  have hy3 : min ay by_ ≤ min (ay + ah) (by_ + bh) := min_le_min (by omega) (by omega)
  have hy6 : max ay by_ ≤ 32767 := max_le hay.2 hby.2
  have hy7 : -32768 ≤ min ay by_ := le_min hay.1 hby.1
  have huni : spec_uni ax ay aw ah bx by_ bw bh
      = aw * ah + bw * bh - spec_inter ax ay aw ah bx by_ bw bh := rfl
  refine ⟨⟨?_, ?_, ?_, ?_⟩, ⟨?_, ?_, ?_, ?_⟩, ⟨?_, ?_⟩, ⟨?_, ?_⟩, ?_, ?_, ?_, ⟨?_, ?_⟩, ?_, ?_⟩ <;>
    constructor <;> omega

/-- C4 fails when an `int` operation overflows. For the 50000 × 50000 and
70000 × 70000 squares at the origin the products overflow: `inter` wraps to a
negative value while `uni` stays positive, and the quotient is about −2.97.
For the boxes `(2147483638, 0, 10, 1)` and `(0, 0, 1, 1)` the corner sum
`ax + aw` overflows: `inter` is 10, `uni` is 1 and the quotient is 10. -/
theorem iou_overflow_outside_unit_interval :
    ((0 : Int) ≤ 50000 ∧ (0 : Int) ≤ 70000 ∧
      iou_inter 0 0 50000 50000 0 0 70000 70000 = -1794967296 ∧
      iou_uni 0 0 50000 50000 0 0 70000 70000 = 605032704 ∧
      (∃ q, iou_exact 0 0 50000 50000 0 0 70000 70000 = some q ∧ q < 0) ∧
      (∃ v, iou_xywh 0 0 50000 50000 0 0 70000 70000 = some v ∧ v < 0)) ∧
    ((0 : Int) ≤ 10 ∧ (0 : Int) ≤ 1 ∧
      iou_inter 2147483638 0 10 1 0 0 1 1 = 10 ∧
      iou_uni 2147483638 0 10 1 0 0 1 1 = 1 ∧
      (∃ q, iou_exact 2147483638 0 10 1 0 0 1 1 = some q ∧ 1 < q) ∧
      iou_xywh 2147483638 0 10 1 0 0 1 1 = some (10 * 2 ^ 149)) := by
  have hi : iou_inter 0 0 50000 50000 0 0 70000 70000 = -1794967296 := by decide
  have hu : iou_uni 0 0 50000 50000 0 0 70000 70000 = 605032704 := by decide
  have hi2 : iou_inter 2147483638 0 10 1 0 0 1 1 = 10 := by decide
  have hu2 : iou_uni 2147483638 0 10 1 0 0 1 1 = 1 := by decide
  refine ⟨⟨by decide, by decide, hi, hu, ?_, ?_⟩, by decide, by decide, hi2, hu2, ?_, by decide⟩
  · refine ⟨(-1794967296 : ℚ) / 605032704, ?_, by norm_num⟩
    unfold iou_exact
    simp only [hi, hu]
    norm_num [qdiv]
  · have hx : ∃ v, iou_xywh 0 0 50000 50000 0 0 70000 70000 = some v :=
      Option.isSome_iff_exists.1 (by decide)
    obtain ⟨v, hv⟩ := hx
    refine ⟨v, hv, ?_⟩
    have hlt : f32lt (iou_xywh 0 0 50000 50000 0 0 70000 70000) 0 = true := by decide
    rw [hv] at hlt
    simpa [f32lt] using hlt
  · refine ⟨10, ?_, by norm_num⟩
    unfold iou_exact
    simp only [hi2, hu2]
    norm_num [qdiv]

/-- C4 (amended). For rectangles with non-negative width and height on which no
`int` operation of `iou_xywh` overflows, `iou_xywh` never divides by zero, its
`float` result lies between 0 and `1.0f`, the exact quotient `inter / uni`
lies in `[0, 1]`, and when the union area is 0 the result is exactly 0. -/
theorem iou_in_unit_interval (ax ay aw ah bx by_ bw bh : Int)
    (haw : 0 ≤ aw) (hah : 0 ≤ ah) (hbw : 0 ≤ bw) (hbh : 0 ≤ bh)
    (hno : NoOverflow ax ay aw ah bx by_ bw bh) :
    (∃ v, iou_xywh ax ay aw ah bx by_ bw bh = some v ∧ 0 ≤ v ∧ v ≤ (f32one : Int)) ∧
    (∃ q, iou_exact ax ay aw ah bx by_ bw bh = some q ∧ 0 ≤ q ∧ q ≤ 1) ∧
    (iou_uni ax ay aw ah bx by_ bw bh = 0 →
      iou_xywh ax ay aw ah bx by_ bw bh = some 0 ∧
      iou_exact ax ay aw ah bx by_ bw bh = some 0) := by
  have hI := iou_inter_eq_spec ax ay aw ah bx by_ bw bh hno
  have hU := iou_uni_eq_spec ax ay aw ah bx by_ bw bh hno
  have hi : 0 ≤ iou_inter ax ay aw ah bx by_ bw bh := by
    rw [hI]; exact spec_inter_nonneg ax ay aw ah bx by_ bw bh
  have hu : iou_inter ax ay aw ah bx by_ bw bh ≤ iou_uni ax ay aw ah bx by_ bw bh := by
    rw [hI, hU]; exact spec_inter_le_uni ax ay aw ah bx by_ bw bh haw hah hbw hbh
  refine ⟨?_, ?_, ?_⟩
  · rw [iou_xywh_of_nonneg _ _ _ _ _ _ _ _ hi]
    by_cases hpos : 0 < iou_uni ax ay aw ah bx by_ bw bh
    · rw [if_pos hpos]
      obtain ⟨v, hv, hle⟩ := f32div_ofNat_le_one _ _ (Int.toNat_le_toNat hu) (by omega)
      rw [hv]
      exact ⟨v, rfl, Int.natCast_nonneg _, by exact_mod_cast hle⟩
    · rw [if_neg hpos]
      exact ⟨0, rfl, le_refl _, Int.natCast_nonneg _⟩
  · unfold iou_exact
    simp only
    by_cases hpos : 0 < iou_uni ax ay aw ah bx by_ bw bh
    · rw [if_pos hpos]
      unfold qdiv
      rw [if_neg (ne_of_gt hpos)]
      have hq : (0 : ℚ) < (iou_uni ax ay aw ah bx by_ bw bh : ℚ) := by exact_mod_cast hpos
      refine ⟨_, rfl, ?_, ?_⟩
      · exact div_nonneg (by exact_mod_cast hi) (le_of_lt hq)
      · rw [div_le_one hq]
        exact_mod_cast hu
    · rw [if_neg hpos]
      exact ⟨0, rfl, le_refl _, zero_le_one⟩
  · intro h0
    unfold iou_xywh iou_exact
    simp only [h0, lt_irrefl, if_false, and_self]

theorem iou_in_unit_interval_witness :
    (0 : Int) ≤ 10 ∧ NoOverflow 0 0 10 10 5 0 10 10 ∧
    ((∃ v, iou_xywh 0 0 10 10 5 0 10 10 = some v ∧ 0 ≤ v ∧ v ≤ (f32one : Int)) ∧
    (∃ q, iou_exact 0 0 10 10 5 0 10 10 = some q ∧ 0 ≤ q ∧ q ≤ 1) ∧
    (iou_uni 0 0 10 10 5 0 10 10 = 0 →
      iou_xywh 0 0 10 10 5 0 10 10 = some 0 ∧
      iou_exact 0 0 10 10 5 0 10 10 = some 0)) :=
  ⟨by decide, by decide, iou_in_unit_interval 0 0 10 10 5 0 10 10
    (by decide) (by decide) (by decide) (by decide) (by decide)⟩

/-- C5. The function `iou_xywh` is symmetric in its two rectangles, and so is
the exact quotient. -/
theorem iou_symmetric (ax ay aw ah bx by_ bw bh : Int) :
    iou_xywh ax ay aw ah bx by_ bw bh = iou_xywh bx by_ bw bh ax ay aw ah ∧
    iou_exact ax ay aw ah bx by_ bw bh = iou_exact bx by_ bw bh ax ay aw ah := by
  unfold iou_xywh iou_exact
  simp only [iou_inter_comm ax ay aw ah bx by_ bw bh, iou_uni_comm ax ay aw ah bx by_ bw bh,
    and_self]

/-- C6 fails in two ways. For a rectangle of zero area the union area is 0 and
the result is 0, not 1. For the 46341 × 46341 square the product overflows,
`uni` wraps to a negative value and the result is 0 as well. -/
theorem iou_identical_not_one :
    ((0 : Int) ≤ 0 ∧ iou_xywh 0 0 0 0 0 0 0 0 = some 0 ∧ iou_exact 0 0 0 0 0 0 0 0 = some 0) ∧
    ((0 : Int) < 46341 ∧ iou_uni 0 0 46341 46341 0 0 46341 46341 = -2147479015 ∧
      iou_xywh 0 0 46341 46341 0 0 46341 46341 = some 0 ∧
      iou_exact 0 0 46341 46341 0 0 46341 46341 = some 0) := by
  have hu0 : iou_uni 0 0 0 0 0 0 0 0 = 0 := by decide
  have hu1 : iou_uni 0 0 46341 46341 0 0 46341 46341 = -2147479015 := by decide
  refine ⟨⟨le_refl _, by decide, ?_⟩, by decide, hu1, by decide, ?_⟩
  · unfold iou_exact
    simp only [hu0, lt_irrefl, if_false]
  · unfold iou_exact
    simp only [hu1]
    rw [if_neg (by decide)]

/-- C6 (amended). For every rectangle with strictly positive width and height
on which no `int` operation of `iou_xywh` overflows, `iou_xywh` of the
rectangle with itself is exactly `1.0f`, and the exact quotient is 1. -/
theorem iou_identical_eq_one (ax ay aw ah : Int) (haw : 0 < aw) (hah : 0 < ah)
    (hno : NoOverflow ax ay aw ah ax ay aw ah) :
    iou_xywh ax ay aw ah ax ay aw ah = some (f32one : Int) ∧
    iou_exact ax ay aw ah ax ay aw ah = some 1 := by
  have hI := iou_inter_eq_spec ax ay aw ah ax ay aw ah hno
  have hU := iou_uni_eq_spec ax ay aw ah ax ay aw ah hno
  have hs := spec_inter_self ax ay aw ah (le_of_lt haw) (le_of_lt hah)
  have hA : 0 < aw * ah := mul_pos haw hah
  have hinter : iou_inter ax ay aw ah ax ay aw ah = aw * ah := by rw [hI, hs]
  have huni : iou_uni ax ay aw ah ax ay aw ah = aw * ah := by
    rw [hU]
    unfold spec_uni
    rw [hs]
    ring
  constructor
  · rw [iou_xywh_of_nonneg _ _ _ _ _ _ _ _ (by rw [hinter]; exact le_of_lt hA)]
    rw [hinter, huni, if_pos hA]
    have hone : 0 < f32one := by unfold f32one; exact Nat.pow_pos (by norm_num)
    have hne : f32ofNat (aw * ah).toNat ≠ 0 :=
      Nat.ne_of_gt (Nat.lt_of_lt_of_le hone (f32ofNat_pos _ (by omega)))
    rw [f32div_self _ hne]
    rfl
  · unfold iou_exact
    simp only [hinter, huni, hA, if_true]
    unfold qdiv
    rw [if_neg (ne_of_gt hA)]
    have hq : ((aw * ah : Int) : ℚ) ≠ 0 := by exact_mod_cast (ne_of_gt hA)
    rw [div_self hq]

theorem iou_identical_eq_one_witness :
    (0 : Int) < 200 ∧ (0 : Int) < 400 ∧ NoOverflow 100 50 200 400 100 50 200 400 ∧
    iou_xywh 100 50 200 400 100 50 200 400 = some (f32one : Int) ∧
    iou_exact 100 50 200 400 100 50 200 400 = some 1 :=
  ⟨by decide, by decide, by decide,
   iou_identical_eq_one 100 50 200 400 (by decide) (by decide) (by decide)⟩

/-- C7 fails when a corner sum overflows: the boxes `(0, 0, 10, 10)` and
`(2000000000, 0, 2000000000, 1)` are disjoint on the x axis, yet `bx + bw` and
the difference of line 68 wrap, `inter` is 2000000000, `uni` is 100 and the
result is 20000000. -/
theorem iou_disjoint_overflow :
    ((0 : Int) + 10 ≤ 2000000000 ∧ (0 : Int) ≤ 10 ∧ (0 : Int) ≤ 2000000000 ∧ (0 : Int) ≤ 1) ∧
    iou_inter 0 0 10 10 2000000000 0 2000000000 1 = 2000000000 ∧
    iou_uni 0 0 10 10 2000000000 0 2000000000 1 = 100 ∧
    iou_xywh 0 0 10 10 2000000000 0 2000000000 1 = some (20000000 * 2 ^ 149) ∧
    iou_exact 0 0 10 10 2000000000 0 2000000000 1 = some 20000000 := by
  have hi : iou_inter 0 0 10 10 2000000000 0 2000000000 1 = 2000000000 := by decide
  have hu : iou_uni 0 0 10 10 2000000000 0 2000000000 1 = 100 := by decide
  refine ⟨by decide, hi, hu, by decide, ?_⟩
  unfold iou_exact
  simp only [hi, hu]
  norm_num [qdiv]

/-- C7 (amended). For two rectangles whose extents do not overlap on the x axis
or do not overlap on the y axis and on which no `int` operation of `iou_xywh`
overflows, the clamped intersection area is 0 and `iou_xywh` returns exactly
0. -/
theorem iou_disjoint_eq_zero (ax ay aw ah bx by_ bw bh : Int)
    (h : ax + aw ≤ bx ∨ bx + bw ≤ ax ∨ ay + ah ≤ by_ ∨ by_ + bh ≤ ay)
    (hno : NoOverflow ax ay aw ah bx by_ bw bh) :
    iou_inter ax ay aw ah bx by_ bw bh = 0 ∧
    iou_xywh ax ay aw ah bx by_ bw bh = some 0 ∧
    iou_exact ax ay aw ah bx by_ bw bh = some 0 := by
  have hinter : iou_inter ax ay aw ah bx by_ bw bh = 0 := by
    rw [iou_inter_eq_spec ax ay aw ah bx by_ bw bh hno]
    exact spec_inter_disjoint ax ay aw ah bx by_ bw bh h
  have hone : 0 < f32one := by unfold f32one; exact Nat.pow_pos (by norm_num)
  refine ⟨hinter, ?_, ?_⟩
  · rw [iou_xywh_of_nonneg _ _ _ _ _ _ _ _ (by rw [hinter])]
    by_cases hpos : 0 < iou_uni ax ay aw ah bx by_ bw bh
    · have hne : f32ofNat (iou_uni ax ay aw ah bx by_ bw bh).toNat ≠ 0 :=
        Nat.ne_of_gt (Nat.lt_of_lt_of_le hone (f32ofNat_pos _ (by omega)))
      rw [if_pos hpos, hinter, Int.toNat_zero, f32ofNat_zero, f32div_zero_left _ hne]
      rfl
    · rw [if_neg hpos]
  · unfold iou_exact
    simp only [hinter]
    by_cases hpos : 0 < iou_uni ax ay aw ah bx by_ bw bh
    · rw [if_pos hpos]
      unfold qdiv
      rw [if_neg (ne_of_gt hpos)]
      simp
    · rw [if_neg hpos]

theorem iou_disjoint_eq_zero_witness :
    ((100 : Int) + 200 ≤ 400 ∨ (400 : Int) + 200 ≤ 100 ∨ (50 : Int) + 400 ≤ 50 ∨
      (50 : Int) + 400 ≤ 50) ∧
    NoOverflow 100 50 200 400 400 50 200 400 ∧
    iou_inter 100 50 200 400 400 50 200 400 = 0 ∧
    iou_xywh 100 50 200 400 400 50 200 400 = some 0 ∧
    iou_exact 100 50 200 400 400 50 200 400 = some 0 :=
  ⟨by decide, by decide,
   iou_disjoint_eq_zero 100 50 200 400 400 50 200 400 (by decide) (by decide)⟩

/-! ## `setup`: the bed region -/

theorem lit_035 : f32lit 35 100 = 11744051 * 2 ^ 124 := by decide

theorem lit_080 : f32lit 80 100 = 13421773 * 2 ^ 125 := by decide

/-- Scaling an integer `W < 2^24` by a `float` factor `c ≤ 1.0f` and truncating
gives an integer in `[0, W]`, which is at least 1 when `W * c ≥ 1`. -/
theorem scaled_dim_bounds (W c : Nat) (hW : W < 2 ^ 24) (hc : c ≤ f32one) :
    0 ≤ f32toInt (f32mul (f32ofNat W) c) ∧
    f32toInt (f32mul (f32ofNat W) c) ≤ (W : Int) ∧
    (f32one ≤ W * c → 1 ≤ f32toInt (f32mul (f32ofNat W) c)) := by
  have hone : 0 < f32one := by unfold f32one; exact Nat.pow_pos (by norm_num)
  rw [f32ofNat_exact W hW]
  unfold f32toInt f32mul
  have hup : f32rnd (W * f32one * c) f32one ≤ W * 2 ^ 149 := by
    apply f32rnd_le _ _ W 149 hone hW
    calc W * f32one * c = W * c * f32one := by ring
      _ ≤ W * f32one * f32one :=
        Nat.mul_le_mul_right _ (Nat.mul_le_mul_left _ hc)
      _ = W * 2 ^ 149 * f32one := by unfold f32one; rfl
  have hdiv : f32rnd (W * f32one * c) f32one / f32one ≤ W := by
    apply Nat.div_le_of_le_mul
    calc f32rnd (W * f32one * c) f32one ≤ W * 2 ^ 149 := hup
      _ = f32one * W := by unfold f32one; ring
  refine ⟨Int.natCast_nonneg _, by exact_mod_cast hdiv, ?_⟩
  intro hge
  have hlow : 1 * 2 ^ 149 ≤ f32rnd (W * f32one * c) f32one := by
    apply f32rnd_ge _ _ 1 149 hone (by norm_num)
    calc 1 * 2 ^ 149 * f32one = f32one * f32one := by unfold f32one; ring
      _ ≤ W * c * f32one := Nat.mul_le_mul_right _ hge
      _ = W * f32one * c := by ring
  have h1 : 1 ≤ f32rnd (W * f32one * c) f32one / f32one := by
    rw [Nat.le_div_iff_mul_le hone]
    calc 1 * f32one = 1 * 2 ^ 149 := by unfold f32one; rfl
      _ ≤ _ := hlow
  exact_mod_cast h1

/-- Centring: for `b ≤ W` the offset `(W - b) / 2` is non-negative and the
extent `offset + b` stays within `W`. -/
theorem centred_offset_bounds (W b : Int) (hb : b ≤ W) :
    0 ≤ Int.tdiv (W - b) 2 ∧ Int.tdiv (W - b) 2 + b ≤ W := by
  rw [Int.tdiv_eq_ediv (by omega) (by norm_num)]
  omega

/-- C8 fails on a 1 × 1 frame: the computed region has width 0 and height 0. -/
theorem bed_region_degenerate_tiny_frame :
    0 < 1 ∧ (setup 1 1 State.init).bed_w = 0 ∧ (setup 1 1 State.init).bed_h = 0 := by
  decide

/-- C8 (amended). For every frame of width at least 3 and height at least 2
(both `uint16_t`), the bed region computed by `setup` has strictly positive
width and height and lies within the frame. -/
theorem bed_region_within_frame (im_w im_h : Nat) (s : State)
    (hw3 : 3 ≤ im_w) (hw : im_w < 65536) (hh2 : 2 ≤ im_h) (hh : im_h < 65536) :
    0 < (setup im_w im_h s).bed_w ∧ 0 < (setup im_w im_h s).bed_h ∧
    0 ≤ (setup im_w im_h s).bed_x ∧ 0 ≤ (setup im_w im_h s).bed_y ∧
    (setup im_w im_h s).bed_x + (setup im_w im_h s).bed_w ≤ im_w ∧
    (setup im_w im_h s).bed_y + (setup im_w im_h s).bed_h ≤ im_h := by
  have hW : im_w < 2 ^ 24 := by omega
  have hH : im_h < 2 ^ 24 := by omega
  have hc35 : f32lit 35 100 ≤ f32one := by rw [lit_035]; decide
  have hc80 : f32lit 80 100 ≤ f32one := by rw [lit_080]; decide
  obtain ⟨w0, w1, w2⟩ := scaled_dim_bounds im_w (f32lit 35 100) hW hc35
  obtain ⟨h0, h1, h2⟩ := scaled_dim_bounds im_h (f32lit 80 100) hH hc80
  have wpos : 1 ≤ f32toInt (f32mul (f32ofNat im_w) (f32lit 35 100)) := by
    apply w2
    rw [lit_035]
    calc f32one ≤ 3 * (11744051 * 2 ^ 124) := by decide
      _ ≤ im_w * (11744051 * 2 ^ 124) := Nat.mul_le_mul_right _ hw3
  have hpos : 1 ≤ f32toInt (f32mul (f32ofNat im_h) (f32lit 80 100)) := by
    apply h2
    rw [lit_080]
    calc f32one ≤ 2 * (13421773 * 2 ^ 125) := by decide
      _ ≤ im_h * (13421773 * 2 ^ 125) := Nat.mul_le_mul_right _ hh2
  obtain ⟨x0, x1⟩ := centred_offset_bounds im_w _ w1
  obtain ⟨y0, y1⟩ := centred_offset_bounds im_h _ h1
  unfold setup
  exact ⟨wpos, hpos, x0, y0, x1, y1⟩

theorem bed_region_within_frame_witness :
    3 ≤ 1920 ∧ 1920 < 65536 ∧ 2 ≤ 1080 ∧ 1080 < 65536 ∧
    (0 < (setup 1920 1080 State.init).bed_w ∧ 0 < (setup 1920 1080 State.init).bed_h ∧
    0 ≤ (setup 1920 1080 State.init).bed_x ∧ 0 ≤ (setup 1920 1080 State.init).bed_y ∧
    (setup 1920 1080 State.init).bed_x + (setup 1920 1080 State.init).bed_w ≤ (1920 : Nat) ∧
    (setup 1920 1080 State.init).bed_y + (setup 1920 1080 State.init).bed_h ≤ (1080 : Nat)) :=
  ⟨by decide, by decide, by decide, by decide,
   bed_region_within_frame 1920 1080 State.init (by decide) (by decide) (by decide) (by decide)⟩

/-- C9 fails: on a frame of width 0 and height 0 `setup` computes a region of
size zero and marks it as initialised. -/
theorem setup_zero_frame_marked_inited :
    (setup 0 0 State.init).bed_roi_inited = true ∧
    (setup 0 0 State.init).bed_w = 0 ∧ (setup 0 0 State.init).bed_h = 0 := by
  decide

/-- C9 (amended). The function `setup` checks nothing about the resolution: it
sets `bed_roi_inited` to true for every frame size, and a frame width or
height of 0 gives a region of width or height 0. -/
theorem setup_always_marks_inited (im_w im_h : Nat) (s : State) :
    (setup im_w im_h s).bed_roi_inited = true ∧
    (setup 0 im_h s).bed_w = 0 ∧ (setup im_w 0 s).bed_h = 0 := by
  have z35 : f32toInt (f32mul (f32ofNat 0) (f32lit 35 100)) = 0 := by decide
  have z80 : f32toInt (f32mul (f32ofNat 0) (f32lit 80 100)) = 0 := by decide
  unfold setup
  exact ⟨rfl, z35, z80⟩

/-! ## The detection loop -/

/-- C3 fails when the class table does not flag the fall class: a detection of
class 0 with score 40 is dropped by the `continue` of line 207. -/
theorem unflagged_fall_class_dropped :
    (0 : Int) = FALL_ID ∧ SCORE_TH ≤ 40 ∧
    (check_item noneFlagged 1920 1080 fhd
      { type := 0, score := 40, xMin := 0, xMax := 0, yMin := 0, yMax := 0 }).isSome
      = false := by
  decide

/-- C3 (amended). A detection reaches the fall decision exactly when its class
is flagged in the class table, its class id is `FALL_ID` and its score is at
least `SCORE_TH`. -/
theorem detection_filter_iff (itemList : ItemList) (im_w im_h : Nat) (s : State)
    (item : ObjectDetectionResult) :
    (check_item itemList im_w im_h s item).isSome = true ↔
      ((itemList item.type).filter ≠ 0 ∧ item.type = FALL_ID ∧ SCORE_TH ≤ item.score) := by
  unfold check_item
  simp only
  by_cases hf : (itemList item.type).filter = 0
  · simp [hf]
  · by_cases hc : item.type = FALL_ID ∧ SCORE_TH ≤ item.score
    · rw [if_neg hf, if_pos hc]
      exact ⟨fun _ => ⟨hf, hc.1, hc.2⟩, fun _ => rfl⟩
    · rw [if_neg hf, if_neg hc]
      simp only [Option.isSome_none, Bool.false_eq_true, false_iff]
      exact fun h => hc h.2

/-- A detection sets `fall_cond_met` exactly when it passes the filter and the
value of `iou_xywh` for its pixel box and the bed region is below
`BED_IOU_TH`. -/
theorem check_item_evidence_iff (itemList : ItemList) (im_w im_h : Nat) (s : State)
    (item : ObjectDetectionResult) (hinit : s.bed_roi_inited = true) :
    (∃ c, check_item itemList im_w im_h s item = some c ∧ c.cond_out_bed = true) ↔
      ((itemList item.type).filter ≠ 0 ∧ item.type = FALL_ID ∧ SCORE_TH ≤ item.score ∧
        f32lt (iou_xywh (to_pixel item.xMin im_w) (to_pixel item.yMin im_h)
          (max 1 (to_pixel item.xMax im_w - to_pixel item.xMin im_w))
          (max 1 (to_pixel item.yMax im_h - to_pixel item.yMin im_h))
          s.bed_x s.bed_y s.bed_w s.bed_h) BED_IOU_TH = true) := by
  unfold check_item
  simp only
  by_cases hf : (itemList item.type).filter = 0
  · simp [hf]
  · by_cases hc : item.type = FALL_ID ∧ SCORE_TH ≤ item.score
    · rw [if_neg hf, if_pos hc, if_pos hinit]
      constructor
      · rintro ⟨c, hc1, hc2⟩
        have hc3 := Option.some.inj hc1
        subst hc3
        exact ⟨hf, hc.1, hc.2, hc2⟩
      · rintro ⟨-, -, -, h⟩
        exact ⟨_, rfl, h⟩
    · rw [if_neg hf, if_neg hc]
      constructor
      · rintro ⟨c, hc1, -⟩
        exact absurd hc1 (by simp)
      · rintro ⟨-, h1, h2, -⟩
        exact absurd ⟨h1, h2⟩ hc

/-- The detection loop ends with `fall_cond_met` set exactly when it started
set or some detection sets it. -/
theorem foldl_loop_item_iff (itemList : ItemList) (im_w im_h : Nat) (s : State)
    (results : List ObjectDetectionResult) (b : Bool) :
    results.foldl (loop_item itemList im_w im_h s) b = true ↔
      (b = true ∨ ∃ item ∈ results,
        ∃ c, check_item itemList im_w im_h s item = some c ∧ c.cond_out_bed = true) := by
  induction results generalizing b with
  | nil => simp
  | cons r rs ih =>
    rw [List.foldl_cons, ih]
    unfold loop_item
    cases hci : check_item itemList im_w im_h s r with
    | none => simp [hci]
    | some c =>
      by_cases hcb : c.cond_out_bed = true
      · simp [hci, hcb]
      · simp [hci, hcb]

/-- Without overflow and with a union area below `2^24`, where `(float)inter`
and `(float)uni` are exact, the binary32 test `bed_iou < BED_IOU_TH` of line 237
agrees with the exact test `IoU < 1 / 10`. -/
theorem iou_lt_threshold_iff_spec (ax ay aw ah bx by_ bw bh : Int)
    (haw : 0 ≤ aw) (hah : 0 ≤ ah) (hbw : 0 ≤ bw) (hbh : 0 ≤ bh)
    (hno : NoOverflow ax ay aw ah bx by_ bw bh)
    (hsmall : spec_uni ax ay aw ah bx by_ bw bh < 2 ^ 24) :
    f32lt (iou_xywh ax ay aw ah bx by_ bw bh) BED_IOU_TH = true ↔
      spec_iou ax ay aw ah bx by_ bw bh < 1 / 10 := by
  have hI := iou_inter_eq_spec ax ay aw ah bx by_ bw bh hno
  have hU := iou_uni_eq_spec ax ay aw ah bx by_ bw bh hno
  have hi := spec_inter_nonneg ax ay aw ah bx by_ bw bh
  have hu := spec_inter_le_uni ax ay aw ah bx by_ bw bh haw hah hbw hbh
  rw [iou_xywh_of_nonneg _ _ _ _ _ _ _ _ (by rw [hI]; exact hi), hI, hU]
  unfold spec_iou
  have h24 : (2:Int) ^ 24 = 16777216 := by norm_num
  have hn24 : (2:Nat) ^ 24 = 16777216 := by norm_num
  by_cases hpos : 0 < spec_uni ax ay aw ah bx by_ bw bh
  · rw [if_pos hpos, if_pos hpos]
    obtain ⟨v, hv, -⟩ := f32div_ofNat_le_one (spec_inter ax ay aw ah bx by_ bw bh).toNat
      (spec_uni ax ay aw ah bx by_ bw bh).toNat (Int.toNat_le_toNat hu) (by omega)
    have hiff := f32div_lt_threshold_iff (spec_inter ax ay aw ah bx by_ bw bh).toNat
      (spec_uni ax ay aw ah bx by_ bw bh).toNat v (by omega) (by omega)
      (Int.toNat_le_toNat hu) hv
    rw [hv]
    have hcast : f32lt (Option.map Int.ofNat (some v)) BED_IOU_TH = true
        ↔ v < BED_IOU_TH := by
      simp [f32lt]
    rw [hcast, hiff]
    have hq : (0 : ℚ) < (spec_uni ax ay aw ah bx by_ bw bh : ℚ) := by exact_mod_cast hpos
    rw [div_lt_div_iff₀ hq (by norm_num)]
    constructor
    · intro h
      have h2 : spec_inter ax ay aw ah bx by_ bw bh * 10
          < 1 * spec_uni ax ay aw ah bx by_ bw bh := by omega
      exact_mod_cast h2
    · intro h
      have h2 : spec_inter ax ay aw ah bx by_ bw bh * 10
          < 1 * spec_uni ax ay aw ah bx by_ bw bh := by exact_mod_cast h
      omega
  · rw [if_neg hpos, if_neg hpos]
    have hth : f32lt (some 0) BED_IOU_TH = true := by decide
    rw [hth]
    norm_num

/-- A normalised coordinate in `[0, 1]` becomes a pixel coordinate in
`[0, dim]`. -/
theorem to_pixel_bounds (v : F32) (dim : Nat) (hdim : dim < 2 ^ 24) (hv : v ≤ f32one) :
    0 ≤ to_pixel v dim ∧ to_pixel v dim ≤ (dim : Int) := by
  have h := scaled_dim_bounds dim v hdim hv
  have hcomm : f32mul v (f32ofNat dim) = f32mul (f32ofNat dim) v := by
    unfold f32mul
    rw [Nat.mul_comm]
  unfold to_pixel
  rw [hcomm]
  exact ⟨h.1, h.2.1⟩

/-- The bed region of `setup` lies within the frame, for every frame size. -/
theorem setup_bed_bounds (im_w im_h : Nat) (s : State)
    (hw : im_w < 2 ^ 24) (hh : im_h < 2 ^ 24) :
    (0 ≤ (setup im_w im_h s).bed_w ∧ 0 ≤ (setup im_w im_h s).bed_h) ∧
    (0 ≤ (setup im_w im_h s).bed_x ∧ 0 ≤ (setup im_w im_h s).bed_y) ∧
    (setup im_w im_h s).bed_x + (setup im_w im_h s).bed_w ≤ im_w ∧
    (setup im_w im_h s).bed_y + (setup im_w im_h s).bed_h ≤ im_h := by
  have hc35 : f32lit 35 100 ≤ f32one := by rw [lit_035]; decide
  have hc80 : f32lit 80 100 ≤ f32one := by rw [lit_080]; decide
  obtain ⟨w0, w1, -⟩ := scaled_dim_bounds im_w (f32lit 35 100) hw hc35
  obtain ⟨h0, h1, -⟩ := scaled_dim_bounds im_h (f32lit 80 100) hh hc80
  obtain ⟨x0, x1⟩ := centred_offset_bounds im_w _ w1
  obtain ⟨y0, y1⟩ := centred_offset_bounds im_h _ h1
  unfold setup
  exact ⟨⟨w0, h0⟩, ⟨x0, y0⟩, x1, y1⟩

/-- A box with corner in the frame and size at most the frame's, against a
region inside the frame: with fewer than `2^23` pixels per frame nothing
overflows in `iou_xywh` and the union area stays below `2^24`. -/
theorem frame_no_overflow (W H ax ay aw ah bx by_ bw bh : Int)
    (hW : 0 ≤ W ∧ W ≤ 65535) (hH : 0 ≤ H ∧ H ≤ 65535)
    (hpix : max 1 W * max 1 H < 8388608)
    (hax : 0 ≤ ax ∧ ax ≤ W) (hay : 0 ≤ ay ∧ ay ≤ H)
    (haw : 0 ≤ aw ∧ aw ≤ max 1 W) (hah : 0 ≤ ah ∧ ah ≤ max 1 H)
    (hbx : 0 ≤ bx ∧ bx + bw ≤ W) (hby : 0 ≤ by_ ∧ by_ + bh ≤ H)
    (hbw : 0 ≤ bw) (hbh : 0 ≤ bh) :
    NoOverflow ax ay aw ah bx by_ bw bh ∧ spec_uni ax ay aw ah bx by_ bw bh < 2 ^ 24 := by
  have hP1 : W ≤ max 1 W := le_max_right _ _
  have hQ1 : H ≤ max 1 H := le_max_right _ _
  have hP0 : (0:Int) ≤ max 1 W := le_trans (by norm_num) (le_max_left 1 W)
  have hQ0 : (0:Int) ≤ max 1 H := le_trans (by norm_num) (le_max_left 1 H)
  have hPle : max 1 W ≤ 65535 := max_le (by norm_num) hW.2
  have hQle : max 1 H ≤ 65535 := max_le (by norm_num) hH.2
  have hA0 : 0 ≤ aw * ah := mul_nonneg haw.1 hah.1
  have hB0 : 0 ≤ bw * bh := mul_nonneg hbw hbh
  have hA : aw * ah ≤ max 1 W * max 1 H := mul_le_mul haw.2 hah.2 hah.1 hP0
  have hB : bw * bh ≤ max 1 W * max 1 H :=
    mul_le_mul (by omega) (by omega) hbh hP0
  have hi0 := spec_inter_nonneg ax ay aw ah bx by_ bw bh
  have hiA := spec_inter_le_left ax ay aw ah bx by_ bw bh haw.1 hah.1
  have hx1 := min_le_left (ax + aw) (bx + bw)
  have hx2 : ax ≤ max ax bx := le_max_left _ _
  have hx3 : min ax bx ≤ min (ax + aw) (bx + bw) := min_le_min (by omega) (by omega)
  have hx6 : max ax bx ≤ 65535 := max_le (by omega) (by omega)
  have hx7 : 0 ≤ min ax bx := le_min hax.1 hbx.1
  have hy1 := min_le_left (ay + ah) (by_ + bh)
  have hy2 : ay ≤ max ay by_ := le_max_left _ _
  have hy3 : min ay by_ ≤ min (ay + ah) (by_ + bh) := min_le_min (by omega) (by omega)
  have hy6 : max ay by_ ≤ 65535 := max_le (by omega) (by omega)
  have hy7 : 0 ≤ min ay by_ := le_min hay.1 hby.1
  have huni : spec_uni ax ay aw ah bx by_ bw bh
      = aw * ah + bw * bh - spec_inter ax ay aw ah bx by_ bw bh := rfl
  have h24 : (2:Int) ^ 24 = 16777216 := by norm_num
  refine ⟨⟨⟨?_, ?_, ?_, ?_⟩, ⟨?_, ?_, ?_, ?_⟩, ⟨?_, ?_⟩, ⟨?_, ?_⟩, ?_, ?_, ?_, ⟨?_, ?_⟩, ?_, ?_⟩, ?_⟩
  all_goals omega

/-- In a frame of fewer than `2^23` pixels the product of the two sides, each
taken as at least one pixel, is below `2^23`. -/
theorem frame_sides_bound (im_w im_h : Nat) (hw : im_w < 65536) (hh : im_h < 65536)
    (hpix : im_w * im_h < 2 ^ 23) :
    max 1 (im_w : Int) * max 1 (im_h : Int) < 8388608 := by
  have h23 : (2:Nat) ^ 23 = 8388608 := by norm_num
  rcases Nat.eq_zero_or_pos im_w with h0 | h0
  · subst h0
    have : max 1 ((0:Nat):Int) = 1 := by simp
    rw [this, one_mul]
    have hm : max 1 (im_h : Int) ≤ 65535 := max_le (by norm_num) (by omega)
    omega
  · rcases Nat.eq_zero_or_pos im_h with h1 | h1
    · subst h1
      have : max 1 ((0:Nat):Int) = 1 := by simp
      rw [this, mul_one]
      have hm : max 1 (im_w : Int) ≤ 65535 := max_le (by norm_num) (by omega)
      omega
    · rw [max_eq_right (by omega : (1:Int) ≤ im_w), max_eq_right (by omega : (1:Int) ≤ im_h)]
      have : ((im_w * im_h : Nat) : Int) < 8388608 := by omega
      rw [Nat.cast_mul] at this
      exact this

/-- After `setup`, on a frame of fewer than `2^23` pixels, a detection with
normalised coordinates in `[0, 1]` causes no overflow in `iou_xywh` and has a
union area below `2^24`. -/
theorem frame_box_safe (im_w im_h : Nat) (s0 : State) (item : ObjectDetectionResult)
    (hw : im_w < 65536) (hh : im_h < 65536) (hpix : im_w * im_h < 2 ^ 23)
    (hnorm : item.xMin ≤ f32one ∧ item.xMax ≤ f32one ∧
      item.yMin ≤ f32one ∧ item.yMax ≤ f32one) :
    NoOverflow (to_pixel item.xMin im_w) (to_pixel item.yMin im_h)
        (max 1 (to_pixel item.xMax im_w - to_pixel item.xMin im_w))
        (max 1 (to_pixel item.yMax im_h - to_pixel item.yMin im_h))
        (setup im_w im_h s0).bed_x (setup im_w im_h s0).bed_y
        (setup im_w im_h s0).bed_w (setup im_w im_h s0).bed_h ∧
      spec_uni (to_pixel item.xMin im_w) (to_pixel item.yMin im_h)
        (max 1 (to_pixel item.xMax im_w - to_pixel item.xMin im_w))
        (max 1 (to_pixel item.yMax im_h - to_pixel item.yMin im_h))
        (setup im_w im_h s0).bed_x (setup im_w im_h s0).bed_y
        (setup im_w im_h s0).bed_w (setup im_w im_h s0).bed_h < 2 ^ 24 := by
  have hW24 : im_w < 2 ^ 24 := by omega
  have hH24 : im_h < 2 ^ 24 := by omega
  obtain ⟨hx1, hx2, hy1, hy2⟩ := hnorm
  obtain ⟨a0, a1⟩ := to_pixel_bounds item.xMin im_w hW24 hx1
  obtain ⟨b0, b1⟩ := to_pixel_bounds item.xMax im_w hW24 hx2
  obtain ⟨c0, c1⟩ := to_pixel_bounds item.yMin im_h hH24 hy1
  obtain ⟨d0, d1⟩ := to_pixel_bounds item.yMax im_h hH24 hy2
  obtain ⟨⟨bw0, bh0⟩, ⟨bx0, by0⟩, bx1, by1⟩ := setup_bed_bounds im_w im_h s0 hW24 hH24
  have hside := frame_sides_bound im_w im_h hw hh hpix
  have hpw0 : (1:Int) ≤ max 1 (to_pixel item.xMax im_w - to_pixel item.xMin im_w) :=
    le_max_left _ _
  have hph0 : (1:Int) ≤ max 1 (to_pixel item.yMax im_h - to_pixel item.yMin im_h) :=
    le_max_left _ _
  have hpw1 : max 1 (to_pixel item.xMax im_w - to_pixel item.xMin im_w) ≤ max 1 (im_w : Int) :=
    max_le_max (le_refl _) (by omega)
  have hph1 : max 1 (to_pixel item.yMax im_h - to_pixel item.yMin im_h) ≤ max 1 (im_h : Int) :=
    max_le_max (le_refl _) (by omega)
  exact frame_no_overflow (im_w : Int) (im_h : Int)
    (to_pixel item.xMin im_w) (to_pixel item.yMin im_h)
    (max 1 (to_pixel item.xMax im_w - to_pixel item.xMin im_w))
    (max 1 (to_pixel item.yMax im_h - to_pixel item.yMin im_h))
    (setup im_w im_h s0).bed_x (setup im_w im_h s0).bed_y
    (setup im_w im_h s0).bed_w (setup im_w im_h s0).bed_h
    ⟨by omega, by omega⟩ ⟨by omega, by omega⟩ hside ⟨a0, a1⟩ ⟨c0, c1⟩
    ⟨by omega, hpw1⟩ ⟨by omega, hph1⟩ ⟨bx0, bx1⟩ ⟨by0, by1⟩ bw0 bh0

/-- The width and height that `setup` computes are never negative. -/
theorem setup_bed_size_nonneg (im_w im_h : Nat) (s0 : State) :
    0 ≤ (setup im_w im_h s0).bed_w ∧ 0 ≤ (setup im_w im_h s0).bed_h := by
  unfold setup f32toInt
  exact ⟨Int.natCast_nonneg _, Int.natCast_nonneg _⟩

/-- C10 fails in three ways. (1) When the class table does not flag the fall
class, a target-class detection with score 80 and IoU 0 against the bed leaves
`fall_cond_met` false. (2) On a 65535 × 65535 frame a detection that covers the
frame has IoU 0.28 against the bed, yet its area overflows the `int`, `uni`
wraps to −131071, `iou_xywh` returns 0 and `fall_cond_met` is set. (3) On a
10000 × 10000 frame nothing overflows; the detection `tenthOverlap` has
`inter = 4579675` and `uni = 45796750`, an IoU of exactly 1/10 and so not below
it, yet `(float)uni` rounds up to 45796752, the binary32 quotient is below
`0.10f` and `fall_cond_met` is set. -/
theorem evidence_flag_differs_from_iou :
    (fall_cond_met noneFlagged 1920 1080 (setup 1920 1080 State.init) [outOfBed] = false ∧
      ∃ item ∈ [outOfBed], item.type = FALL_ID ∧ SCORE_TH ≤ item.score ∧
        spec_iou (to_pixel item.xMin 1920) (to_pixel item.yMin 1080)
          (max 1 (to_pixel item.xMax 1920 - to_pixel item.xMin 1920))
          (max 1 (to_pixel item.yMax 1080 - to_pixel item.yMin 1080))
          (setup 1920 1080 State.init).bed_x (setup 1920 1080 State.init).bed_y
          (setup 1920 1080 State.init).bed_w (setup 1920 1080 State.init).bed_h < 1 / 10) ∧
    (fall_cond_met allFlagged 65535 65535 (setup 65535 65535 State.init) [fullFrame] = true ∧
      ¬ ∃ item ∈ [fullFrame], item.type = FALL_ID ∧ SCORE_TH ≤ item.score ∧
        spec_iou (to_pixel item.xMin 65535) (to_pixel item.yMin 65535)
          (max 1 (to_pixel item.xMax 65535 - to_pixel item.xMin 65535))
          (max 1 (to_pixel item.yMax 65535 - to_pixel item.yMin 65535))
          (setup 65535 65535 State.init).bed_x (setup 65535 65535 State.init).bed_y
          (setup 65535 65535 State.init).bed_w (setup 65535 65535 State.init).bed_h < 1 / 10) ∧
    (fall_cond_met allFlagged 10000 10000 (setup 10000 10000 State.init) [tenthOverlap] = true ∧
      NoOverflow 250 250 3925 5701 3250 1000 3500 8000 ∧
      iou_inter 250 250 3925 5701 3250 1000 3500 8000 = 4579675 ∧
      iou_uni 250 250 3925 5701 3250 1000 3500 8000 = 45796750 ∧
      ¬ ∃ item ∈ [tenthOverlap], item.type = FALL_ID ∧ SCORE_TH ≤ item.score ∧
        spec_iou (to_pixel item.xMin 10000) (to_pixel item.yMin 10000)
          (max 1 (to_pixel item.xMax 10000 - to_pixel item.xMin 10000))
          (max 1 (to_pixel item.yMax 10000 - to_pixel item.yMin 10000))
          (setup 10000 10000 State.init).bed_x (setup 10000 10000 State.init).bed_y
          (setup 10000 10000 State.init).bed_w (setup 10000 10000 State.init).bed_h
            < 1 / 10) := by
  have bed1 : (setup 1920 1080 State.init).bed_x = 624 ∧
      (setup 1920 1080 State.init).bed_y = 108 ∧
      (setup 1920 1080 State.init).bed_w = 672 ∧
      (setup 1920 1080 State.init).bed_h = 864 := by decide
  have bed2 : (setup 65535 65535 State.init).bed_x = 21299 ∧
      (setup 65535 65535 State.init).bed_y = 6553 ∧
      (setup 65535 65535 State.init).bed_w = 22937 ∧
      (setup 65535 65535 State.init).bed_h = 52428 := by decide
  have bed3 : (setup 10000 10000 State.init).bed_x = 3250 ∧
      (setup 10000 10000 State.init).bed_y = 1000 ∧
      (setup 10000 10000 State.init).bed_w = 3500 ∧
      (setup 10000 10000 State.init).bed_h = 8000 := by decide
  have box1 : to_pixel outOfBed.xMin 1920 = 0 ∧ to_pixel outOfBed.yMin 1080 = 270 ∧
      max 1 (to_pixel outOfBed.xMax 1920 - to_pixel outOfBed.xMin 1920) = 240 ∧
      max 1 (to_pixel outOfBed.yMax 1080 - to_pixel outOfBed.yMin 1080) = 540 := by decide
  have box2 : to_pixel fullFrame.xMin 65535 = 0 ∧ to_pixel fullFrame.yMin 65535 = 0 ∧
      max 1 (to_pixel fullFrame.xMax 65535 - to_pixel fullFrame.xMin 65535) = 65535 ∧
      max 1 (to_pixel fullFrame.yMax 65535 - to_pixel fullFrame.yMin 65535) = 65535 := by
    decide
  have box3 : to_pixel tenthOverlap.xMin 10000 = 250 ∧
      to_pixel tenthOverlap.yMin 10000 = 250 ∧
      max 1 (to_pixel tenthOverlap.xMax 10000 - to_pixel tenthOverlap.xMin 10000) = 3925 ∧
      max 1 (to_pixel tenthOverlap.yMax 10000 - to_pixel tenthOverlap.yMin 10000) = 5701 := by
    decide
  have iou1 : spec_iou 0 270 240 540 624 108 672 864 < 1 / 10 := by
    norm_num [spec_iou, spec_uni, spec_inter]
  have iou2 : ¬ spec_iou 0 0 65535 65535 21299 6553 22937 52428 < 1 / 10 := by
    norm_num [spec_iou, spec_uni, spec_inter]
  have iou3 : ¬ spec_iou 250 250 3925 5701 3250 1000 3500 8000 < 1 / 10 := by
    norm_num [spec_iou, spec_uni, spec_inter]
  refine ⟨⟨by decide, outOfBed, List.mem_singleton.2 rfl, by decide, by decide, ?_⟩,
    ⟨by decide, ?_⟩, ⟨by decide, by decide, by decide, by decide, ?_⟩⟩
  · rw [bed1.1, bed1.2.1, bed1.2.2.1, bed1.2.2.2, box1.2.2.1, box1.2.2.2, box1.1, box1.2.1]
    exact iou1
  · rintro ⟨item, hmem, -, -, hlt⟩
    rw [List.mem_singleton.1 hmem, bed2.1, bed2.2.1, bed2.2.2.1, bed2.2.2.2, box2.2.2.1,
      box2.2.2.2, box2.1, box2.2.1] at hlt
    exact iou2 hlt
  · rintro ⟨item, hmem, -, -, hlt⟩
    rw [List.mem_singleton.1 hmem, bed3.1, bed3.2.1, bed3.2.2.1, bed3.2.2.2, box3.2.2.1,
      box3.2.2.2, box3.1, box3.2.1] at hlt
    exact iou3 hlt

/-- C10 (amended). After `setup`, if for every detection that passes the filter
no `int` operation of `iou_xywh` overflows and the union area of its pixel box
and the bed region is below `2^24` (so that `(float)inter` and `(float)uni` are
exact), then `fall_cond_met` is true after the detection loop exactly when some
detection of the frame has a class flagged in the class table, class id
`FALL_ID`, score at least `SCORE_TH`, and a pixel box
`(xmin, ymin, max(1, xmax - xmin), max(1, ymax - ymin))` whose IoU against the
bed region is strictly below 1/10. For an empty result list the flag is false
and the hold timer is reset to 0. By `frame_box_safe` the condition holds for
all detections with normalised coordinates on frames of fewer than `2^23`
pixels. -/
theorem evidence_iff_exists_out_of_bed (itemList : ItemList) (im_w im_h : Nat) (s0 : State)
    (results : List ObjectDetectionResult)
    (hsafe : ∀ item ∈ results,
      (itemList item.type).filter ≠ 0 → item.type = FALL_ID → SCORE_TH ≤ item.score →
      NoOverflow (to_pixel item.xMin im_w) (to_pixel item.yMin im_h)
          (max 1 (to_pixel item.xMax im_w - to_pixel item.xMin im_w))
          (max 1 (to_pixel item.yMax im_h - to_pixel item.yMin im_h))
          (setup im_w im_h s0).bed_x (setup im_w im_h s0).bed_y
          (setup im_w im_h s0).bed_w (setup im_w im_h s0).bed_h ∧
        spec_uni (to_pixel item.xMin im_w) (to_pixel item.yMin im_h)
          (max 1 (to_pixel item.xMax im_w - to_pixel item.xMin im_w))
          (max 1 (to_pixel item.yMax im_h - to_pixel item.yMin im_h))
          (setup im_w im_h s0).bed_x (setup im_w im_h s0).bed_y
          (setup im_w im_h s0).bed_w (setup im_w im_h s0).bed_h < 2 ^ 24) :
    (fall_cond_met itemList im_w im_h (setup im_w im_h s0) results = true ↔
      ∃ item ∈ results,
        (itemList item.type).filter ≠ 0 ∧ item.type = FALL_ID ∧ SCORE_TH ≤ item.score ∧
        spec_iou (to_pixel item.xMin im_w) (to_pixel item.yMin im_h)
          (max 1 (to_pixel item.xMax im_w - to_pixel item.xMin im_w))
          (max 1 (to_pixel item.yMax im_h - to_pixel item.yMin im_h))
          (setup im_w im_h s0).bed_x (setup im_w im_h s0).bed_y
          (setup im_w im_h s0).bed_w (setup im_w im_h s0).bed_h < 1 / 10) ∧
    fall_cond_met itemList im_w im_h (setup im_w im_h s0) [] = false ∧
    (loop itemList im_w im_h (setup im_w im_h s0) []).1.fall_timer = 0 := by
  have hinit : (setup im_w im_h s0).bed_roi_inited = true := rfl
  obtain ⟨bw0, bh0⟩ := setup_bed_size_nonneg im_w im_h s0
  have hpw : ∀ a b : Int, (0:Int) ≤ max 1 (a - b) := fun a b =>
    le_trans (by norm_num) (le_max_left 1 (a - b))
  refine ⟨?_, rfl, rfl⟩
  unfold fall_cond_met
  rw [foldl_loop_item_iff]
  simp only [Bool.false_eq_true, false_or]
  constructor
  · rintro ⟨item, hmem, h⟩
    obtain ⟨h1, h2, h3, h4⟩ :=
      (check_item_evidence_iff itemList im_w im_h _ item hinit).1 h
    obtain ⟨hno, hsmall⟩ := hsafe item hmem h1 h2 h3
    exact ⟨item, hmem, h1, h2, h3,
      (iou_lt_threshold_iff_spec _ _ _ _ _ _ _ _ (hpw _ _) (hpw _ _) bw0 bh0 hno hsmall).1 h4⟩
  · rintro ⟨item, hmem, h1, h2, h3, h4⟩
    obtain ⟨hno, hsmall⟩ := hsafe item hmem h1 h2 h3
    exact ⟨item, hmem, (check_item_evidence_iff itemList im_w im_h _ item hinit).2
      ⟨h1, h2, h3,
        (iou_lt_threshold_iff_spec _ _ _ _ _ _ _ _ (hpw _ _) (hpw _ _) bw0 bh0 hno hsmall).2
          h4⟩⟩

theorem evidence_iff_exists_out_of_bed_witness :
    (∀ item ∈ [onBed, outOfBed],
      (allFlagged item.type).filter ≠ 0 → item.type = FALL_ID → SCORE_TH ≤ item.score →
      NoOverflow (to_pixel item.xMin 1920) (to_pixel item.yMin 1080)
          (max 1 (to_pixel item.xMax 1920 - to_pixel item.xMin 1920))
          (max 1 (to_pixel item.yMax 1080 - to_pixel item.yMin 1080))
          (setup 1920 1080 State.init).bed_x (setup 1920 1080 State.init).bed_y
          (setup 1920 1080 State.init).bed_w (setup 1920 1080 State.init).bed_h ∧
        spec_uni (to_pixel item.xMin 1920) (to_pixel item.yMin 1080)
          (max 1 (to_pixel item.xMax 1920 - to_pixel item.xMin 1920))
          (max 1 (to_pixel item.yMax 1080 - to_pixel item.yMin 1080))
          (setup 1920 1080 State.init).bed_x (setup 1920 1080 State.init).bed_y
          (setup 1920 1080 State.init).bed_w (setup 1920 1080 State.init).bed_h < 2 ^ 24) ∧
    ((fall_cond_met allFlagged 1920 1080 (setup 1920 1080 State.init) [onBed, outOfBed] = true ↔
      ∃ item ∈ [onBed, outOfBed],
        (allFlagged item.type).filter ≠ 0 ∧ item.type = FALL_ID ∧ SCORE_TH ≤ item.score ∧
        spec_iou (to_pixel item.xMin 1920) (to_pixel item.yMin 1080)
          (max 1 (to_pixel item.xMax 1920 - to_pixel item.xMin 1920))
          (max 1 (to_pixel item.yMax 1080 - to_pixel item.yMin 1080))
          (setup 1920 1080 State.init).bed_x (setup 1920 1080 State.init).bed_y
          (setup 1920 1080 State.init).bed_w (setup 1920 1080 State.init).bed_h < 1 / 10) ∧
    fall_cond_met allFlagged 1920 1080 (setup 1920 1080 State.init) [] = false ∧
    (loop allFlagged 1920 1080 (setup 1920 1080 State.init) []).1.fall_timer = 0) :=
  ⟨by decide,
   evidence_iff_exists_out_of_bed allFlagged 1920 1080 State.init [onBed, outOfBed]
    (by decide)⟩

end FallDetection
